import Mathlib

/-!
# Verification of the chunked-content session and cursor-search subsystem

A shallow embedding of the chunking, session-store, page-search and URL
validation logic of `botasaurus_mcp_server.py`.  Strings are modelled as
`List Char`; Python's `str.lower()` as `List.map Char.toLower`; the two
process-wide dictionaries as an explicit `ServerState` record threaded
through every operation; `datetime.now()` as a `now : Nat` argument taken
by each operation; the session dictionary as a function `Nat → Option
SessionRec`.  All definitions are structural (fuelled where the Python
loop is not structurally recursive) so that every theorem can be checked
on concrete inputs by kernel evaluation.
-/

/-- Python `s.lower()` on the ASCII range: lowercase every character. -/
def pyLower (s : List Char) : List Char := s.map Char.toLower

/-- Python `s.strip()`: drop whitespace from both ends. -/
def pyStrip (s : List Char) : List Char :=
  ((s.dropWhile Char.isWhitespace).reverse.dropWhile Char.isWhitespace).reverse

/-- `sub` occurs in `hay` at index `i`: the slice `hay[i : i+len(sub)]`
exists and equals `sub`.  This is the success condition of Python's
`hay.find(sub, i)` at position `i`. -/
def isMatchAt (hay sub : List Char) (i : Nat) : Bool :=
  decide (i + sub.length ≤ hay.length) && ((hay.drop i).take sub.length == sub)

/-- Python `hay.find(sub, start)`: the least index `i ≥ start` at which
`sub` occurs in `hay` (`none` models the return value `-1`). -/
def strFind (hay sub : List Char) (start : Nat) : Option Nat :=
  (List.range (hay.length + 1)).find? (fun i => decide (start ≤ i) && isMatchAt hay sub i)

/-- All indices at which `sub` occurs in `hay`, in increasing order. -/
def allOccurrences (hay sub : List Char) : List Nat :=
  (List.range (hay.length + 1)).filter (fun i => isMatchAt hay sub i)

/-- The `while True` scan of `_search_on_page_impl` (lines 353-362):
repeatedly `find` from `start`, record the hit, advance `start` by one,
and stop once `cap` (`num_snippets * 10`) hits have been collected
(the length test runs after the append).  `count` is `len(matches)`
before the current append; `fuel` bounds the loop (the scan position
strictly increases and never exceeds `hay.length`). -/
def findAllCappedGo (hay nee : List Char) (cap : Nat) : Nat → Nat → Nat → List Nat
  | 0, _, _ => []
  | fuel + 1, start, count =>
    match strFind hay nee start with
    | none => []
    | some pos =>
      if cap ≤ count + 1 then [pos]
      else pos :: findAllCappedGo hay nee cap fuel (pos + 1) (count + 1)

/-- The full match scan of `_search_on_page_impl`: all occurrence
positions found left-to-right advancing by 1, capped as the code caps. -/
def findAllCapped (hay nee : List Char) (cap : Nat) : List Nat :=
  findAllCappedGo hay nee cap (hay.length + 1) 0 0

/-- The chunk-slicing loop of `_visit_page_impl` (lines 208-211):
`for i in range(0, len(content), 5000): chunks.append(content[i:i+5000])`,
written with explicit fuel so that it is structurally recursive. -/
def chunkContentGo : Nat → List Char → List (List Char)
  | 0, _ => []
  | fuel + 1, c =>
    if c = [] then []
    else c.take 5000 :: chunkContentGo fuel (c.drop 5000)

/-- `content_chunks` as computed by `_visit_page_impl` for text content. -/
def chunkContent (c : List Char) : List (List Char) :=
  chunkContentGo (c.length + 1) c

/-- The chunk-attribution walk shared by both search implementations
(lines 386-392 and 484-490): find the chunk whose cumulative character
range contains `pos`; if the loop never breaks, `chunk_index` stays 0. -/
def chunkIndexOfGo : List (List Char) → Nat → Nat → Nat → Nat
  | [], _, _, _ => 0
  | c :: rest, pos, tempPos, i =>
    if tempPos ≤ pos ∧ pos < tempPos + c.length then i
    else chunkIndexOfGo rest pos (tempPos + c.length) (i + 1)

def chunkIndexOf (chunks : List (List Char)) (pos : Nat) : Nat :=
  chunkIndexOfGo chunks pos 0 0

/-- The ellipsis marker `"..."`. -/
def dots : List Char := ['.', '.', '.']

/-- One entry of the `snippets` list returned by the search tools. -/
structure SnippetEntry where
  chunkIndex : Nat
  snippet : List Char
  position : Nat
deriving DecidableEq, Repr

/-- The context window around a match: up to 100 characters each side,
clamped to the buffer (`max(0, pos - 200 // 2)` is truncated subtraction;
`min` clamps the right edge). -/
def snippetWindow (allChunksText searchText : List Char) (matchPos : Nat) : List Char :=
  (allChunksText.take
    (min allChunksText.length (matchPos + searchText.length + 200 / 2))).drop
    (matchPos - 200 / 2)

/-- Snippet construction shared by `_search_on_page_impl` (lines 364-398)
and `_search_next_on_page_impl` (lines 463-496): extract the context
window, locate the first case-insensitive occurrence of the search text
inside it, and bracket that occurrence.  `none` models the
`match_in_snippet == -1` case in which nothing is appended. -/
def mkSnippet (contentChunks : List (List Char)) (allChunksText searchText : List Char)
    (matchPos : Nat) : Option SnippetEntry :=
  let snippet := snippetWindow allChunksText searchText matchPos
  match strFind (pyLower snippet) (pyLower searchText) 0 with
  | none => none
  | some m =>
    let before := snippet.take m
    let foundText := (snippet.drop m).take searchText.length
    let after := snippet.drop (m + searchText.length)
    let snippetText := dots ++ before ++ '[' :: foundText ++ ']' :: after ++ dots
    some ⟨chunkIndexOf contentChunks matchPos, pyStrip snippetText, matchPos⟩

/-- `f"Chunk {index}\n{chunk}"` plus the `"..."` continuation marker added
when the chunk is exactly the maximum size (lines 219-221 and 289-291). -/
def formatChunk (index : Nat) (chunk : List Char) : List Char :=
  "Chunk ".data ++ (Nat.repr index).data ++ '\n' :: chunk ++
    (if chunk.length = 5000 then dots else [])

/-- `f"Chunk {index} loaded successfully"` (line 295). -/
def loadedMsg (index : Nat) : List Char :=
  "Chunk ".data ++ (Nat.repr index).data ++ " loaded successfully".data

/-- The out-of-range error text of `_read_chunk_impl` (line 541). -/
def outOfRangeMsg (chunkIndex : Int) (totalChunks : Nat) : List Char :=
  "Chunk index ".data ++ (Int.repr chunkIndex).data ++
    " is out of range. Available chunks: 0 to ".data ++
    (Int.repr ((totalChunks : Int) - 1)).data

/-! ## Data model: sessions, the session manager and the two global contexts -/

/-- One entry of `SessionManager.sessions`.  The `driver` handle is an
external resource and is not modelled.  `contentChunks = none` models a
session dictionary in which the `'content_chunks'` key is absent (the
state between `create_session` and the assignment in `_visit_page_impl`);
`currentChunkIndex` starts at 0, matching `session.get('current_chunk_index', 0)`. -/
structure SessionRec where
  createdAt : Nat
  lastUsed : Nat
  contentChunks : Option (List (List Char))
  currentChunkIndex : Nat
deriving DecidableEq, Repr

/-- The `SessionManager`: a dictionary of sessions (modelled as a function
from ids, which are opaque in Python, to records) plus the idle timeout. -/
structure SessionManager where
  sessions : Nat → Option SessionRec
  timeout : Nat

/-- `session_timeout_minutes=30`, the default constructor argument. -/
def defaultSessionTimeoutMinutes : Nat := 30

/-- `session_manager = SessionManager()` (line 107): empty store, default timeout. -/
def SessionManager.empty : SessionManager :=
  ⟨fun _ => none, defaultSessionTimeoutMinutes⟩

/-- Dictionary assignment `self.sessions[sid] = rec`. -/
def SessionManager.setSession (m : SessionManager) (sid : Nat) (r : SessionRec) :
    SessionManager :=
  { m with sessions := fun k => if k = sid then some r else m.sessions k }

/-- `_cleanup_expired_sessions` (lines 70-78): remove every session whose
`now - last_used` exceeds the timeout.  (`remove_session` additionally
quits the external driver, which is not modelled.)  Python compares
`timedelta`s; with monotone clock values, truncated `Nat` subtraction
agrees with it because the timeout is non-negative. -/
def SessionManager.cleanup (m : SessionManager) (now : Nat) : SessionManager :=
  { m with sessions := fun k =>
      match m.sessions k with
      | some s => if m.timeout < now - s.lastUsed then none else some s
      | none => none }

/-- `get_session` (lines 49-56): sweep expired sessions first, then look
up the id, refreshing `last_used` to `now` on a hit. -/
def SessionManager.getSession (m : SessionManager) (now sid : Nat) :
    Option SessionRec × SessionManager :=
  let m1 := m.cleanup now
  match m1.sessions sid with
  | none => (none, m1)
  | some s => (some { s with lastUsed := now }, m1.setSession sid { s with lastUsed := now })

/-- `create_session` (lines 39-47) with the fresh uuid passed in by the
caller: store a driver-only record stamped with the current time. -/
def SessionManager.createSession (m : SessionManager) (now sid : Nat) : SessionManager :=
  m.setSession sid ⟨now, now, none, 0⟩

/-- The single global `_current_search_context` dictionary as written by
`_search_on_page_impl` (lines 403-410). -/
structure SearchContext where
  sessionId : Nat
  searchText : List Char
  allMatches : List Nat
  currentIndex : Nat
  numSnippets : Nat
deriving DecidableEq, Repr

/-- The whole process state: the session manager, the
`_current_session_context['current']` pointer, the search context, and a
counter producing fresh uuids. -/
structure ServerState where
  manager : SessionManager
  currentSessionContext : Option Nat
  searchContext : Option SearchContext
  nextSessionId : Nat

/-- Process start: both global dictionaries empty, a fresh manager. -/
def initialServerState : ServerState :=
  ⟨SessionManager.empty, none, none, 0⟩

/-! ## Result types (one constructor per return dictionary of each tool) -/

/-- Result of `_visit_page_impl` for text content: the formatted first
chunk, `chunk_index = 0` and `has_more_chunks` (the constant `url` and
`format` fields are omitted).  `error` covers the `except` branch. -/
inductive VisitResult where
  | ok (content : List Char) (chunkIndex : Nat) (hasMoreChunks : Bool)
  | error
deriving DecidableEq, Repr

/-- The five return dictionaries of `_load_more_impl`. -/
inductive LoadMoreResult where
  | success (message content : List Char) (chunkIndex : Nat) (hasMoreChunks : Bool)
  | complete (message : List Char) (chunkIndex : Nat) (hasMoreChunks : Bool)
  | noContentChunks
  | noActiveSession
  | sessionNotFound (sessionId : Nat)
deriving DecidableEq, Repr

/-- Whether a `load_more` result carries `has_more_chunks = false`. -/
def reportsNoMore : LoadMoreResult → Bool
  | .success _ _ _ h => !h
  | .complete _ _ h => !h
  | _ => false

/-- The success dictionary of `_search_on_page_impl`. -/
structure SearchOk where
  searchText : List Char
  totalMatches : Nat
  snippetsReturned : Nat
  snippets : List SnippetEntry
deriving DecidableEq, Repr

inductive SearchOnPageResult where
  | ok (r : SearchOk)
  | noChunks (searchText : List Char)
  | noActiveSession
  | sessionNotFound (sessionId : Nat)
deriving DecidableEq, Repr

/-- The success dictionary of `_search_next_on_page_impl`. -/
structure SearchNextOk where
  searchText : List Char
  totalMatches : Nat
  snippetsReturned : Nat
  snippets : List SnippetEntry
  hasMoreResults : Bool
deriving DecidableEq, Repr

inductive SearchNextResult where
  | ok (r : SearchNextOk)
  | noChunks (searchText : List Char)
  | noSearchContext
  | noSearchText
  | sessionNotFound (sessionId : Nat)
deriving DecidableEq, Repr

/-- The return dictionaries of `_read_chunk_impl`.  The index is an `Int`
because Python callers may pass a negative index. -/
inductive ReadChunkResult where
  | ok (chunkIndex : Int) (content : List Char) (totalChunks : Nat) (chunkSize : Nat)
  | outOfRange (sessionId : Nat) (chunkIndex : Int) (errorMsg : List Char) (totalChunks : Nat)
  | noChunks (chunkIndex : Int)
  | noActiveSession
  | sessionNotFound (sessionId : Nat)
deriving DecidableEq, Repr

/-! ## Tool implementations -/

/-- `_visit_page_impl` (lines 199-239), modelling everything after the
external browser has produced the page text `content`: create a session
with a fresh id, re-fetch it through `get_session` (which sweeps), store
the chunk list with the cursor at 0, point the current-session context at
it, and return the formatted first chunk.  The `none` branch mirrors the
Python `if session:` guard: there the local `chunked_content` stays
unbound, the session pointer is still repointed, and evaluating the
return dictionary raises, which the `except` turns into an error result. -/
def visit_page_impl (content : List Char) (now : Nat) (st : ServerState) :
    VisitResult × ServerState :=
  let sid := st.nextSessionId
  let m1 := st.manager.createSession now sid
  let gs := m1.getSession now sid
  match gs.1 with
  | none =>
    (.error, { st with manager := gs.2, currentSessionContext := some sid,
                       nextSessionId := st.nextSessionId + 1 })
  | some s =>
    let chunks := chunkContent content
    let m3 := gs.2.setSession sid { s with contentChunks := some chunks, currentChunkIndex := 0 }
    let chunked := if chunks = [] then "Chunk 0\n".data else formatChunk 0 (chunks.headD [])
    (.ok chunked 0 (decide (chunks.length > 1)),
     { st with manager := m3, currentSessionContext := some sid,
               nextSessionId := st.nextSessionId + 1 })

/-- `_load_more_impl` (lines 266-316). -/
def load_more_impl (now : Nat) (st : ServerState) : LoadMoreResult × ServerState :=
  match st.currentSessionContext with
  | none => (.noActiveSession, st)
  | some sid =>
    let gs := st.manager.getSession now sid
    let st1 := { st with manager := gs.2 }
    match gs.1 with
    | none => (.sessionNotFound sid, st1)
    | some s =>
      match s.contentChunks with
      | none => (.noContentChunks, st1)
      | some chunks =>
        let nxt := s.currentChunkIndex + 1
        if nxt < chunks.length then
          (.success (loadedMsg nxt) (formatChunk nxt (chunks.getD nxt [])) nxt
             (decide (nxt < chunks.length - 1)),
           { st1 with manager := gs.2.setSession sid { s with currentChunkIndex := nxt } })
        else
          (.complete "No more chunks available".data s.currentChunkIndex false, st1)

/-- `n` successive `load_more` calls, collecting the results in order. -/
def loadMoreN (n : Nat) (now : Nat) (st : ServerState) :
    List LoadMoreResult × ServerState :=
  match n with
  | 0 => ([], st)
  | n + 1 =>
    let p := load_more_impl now st
    let q := loadMoreN n now p.2
    (p.1 :: q.1, q.2)

/-- `_search_on_page_impl` (lines 329-428): concatenate the chunks, scan
for every case-insensitive occurrence (capped at `num_snippets * 10`),
build snippets for the first `num_snippets` matches (the inner
`len(snippets) >= num_snippets` break is the final `take`), and overwrite
the global search context. -/
def search_on_page_impl (text : List Char) (numSnippets : Nat) (now : Nat)
    (st : ServerState) : SearchOnPageResult × ServerState :=
  match st.currentSessionContext with
  | none => (.noActiveSession, st)
  | some sid =>
    let gs := st.manager.getSession now sid
    let st1 := { st with manager := gs.2 }
    match gs.1 with
    | none => (.sessionNotFound sid, st1)
    | some s =>
      match s.contentChunks with
      | none => (.noChunks text, st1)
      | some contentChunks =>
        let allChunksText := contentChunks.flatten
        let matchList := findAllCapped (pyLower allChunksText) (pyLower text) (numSnippets * 10)
        let snippets :=
          ((matchList.take numSnippets).filterMap
            (mkSnippet contentChunks allChunksText text)).take numSnippets
        (.ok ⟨text, matchList.length, snippets.length, snippets⟩,
         { st1 with searchContext :=
             (some ⟨sid, text, matchList, snippets.length, numSnippets⟩) })

/-- `_search_next_on_page_impl` (lines 431-518): re-resolve the session
recorded in the search context, re-concatenate its chunks, and build
snippets for the stored offsets `[current_index, current_index + n)`.
The Python `if not search_text` guard fires exactly when the stored text
is the empty string; the `if not session_id` guard cannot fire (uuid
strings are never falsy) and is not modelled. -/
def search_next_on_page_impl (numSnippets : Nat) (now : Nat) (st : ServerState) :
    SearchNextResult × ServerState :=
  match st.searchContext with
  | none => (.noSearchContext, st)
  | some ctx =>
    if ctx.searchText = [] then (.noSearchText, st)
    else
      let gs := st.manager.getSession now ctx.sessionId
      let st1 := { st with manager := gs.2 }
      match gs.1 with
      | none => (.sessionNotFound ctx.sessionId, st1)
      | some s =>
        match s.contentChunks with
        | none => (.noChunks ctx.searchText, st1)
        | some contentChunks =>
          let allChunksText := contentChunks.flatten
          let snippets :=
            ((ctx.allMatches.drop ctx.currentIndex).take numSnippets).filterMap
              (mkSnippet contentChunks allChunksText ctx.searchText)
          let newIndex := min (ctx.currentIndex + numSnippets) ctx.allMatches.length
          (.ok ⟨ctx.searchText, ctx.allMatches.length, snippets.length, snippets,
                decide (newIndex < ctx.allMatches.length)⟩,
           { st1 with searchContext := some { ctx with currentIndex := newIndex } })

/-- `_read_chunk_impl` (lines 521-561). -/
def read_chunk_impl (chunkIndex : Int) (now : Nat) (st : ServerState) :
    ReadChunkResult × ServerState :=
  match st.currentSessionContext with
  | none => (.noActiveSession, st)
  | some sid =>
    let gs := st.manager.getSession now sid
    let st1 := { st with manager := gs.2 }
    match gs.1 with
    | none => (.sessionNotFound sid, st1)
    | some s =>
      match s.contentChunks with
      | none => (.noChunks chunkIndex, st1)
      | some chunks =>
        if chunkIndex < 0 ∨ (chunks.length : Int) ≤ chunkIndex then
          (.outOfRange sid chunkIndex (outOfRangeMsg chunkIndex chunks.length)
             chunks.length, st1)
        else
          let c := chunks.getD chunkIndex.toNat []
          (.ok chunkIndex c chunks.length c.length, st1)

/-! ## URL validation (`validate_url`, lines 110-128)

`urllib.parse.urlparse` is embedded for the fragment of its behaviour the
validator consumes: scheme splitting, netloc extraction, bracket
validation (the `ValueError` raised on an unbalanced IPv6 bracket is the
only way parsing can fail for the validator, and is modelled as `none`),
and the lowercased `hostname` property. -/

/-- Characters allowed after the first letter of a URL scheme. -/
def schemeChar (c : Char) : Bool :=
  c.isAlphanum || c == '+' || c == '-' || c == '.'

/-- Scheme splitting as in `urlsplit`: a valid scheme before the first
`':'` is stripped and lowercased, otherwise the scheme is empty. -/
def splitScheme (url : List Char) : List Char × List Char :=
  match url.findIdx? (· == ':') with
  | some i =>
    if 0 < i ∧ (url.headD ' ').isAlpha ∧ (url.take i).all schemeChar then
      (pyLower (url.take i), url.drop (i + 1))
    else ([], url)
  | none => ([], url)

/-- Netloc extraction: after a leading `"//"`, up to the first `/`, `?` or `#`. -/
def netlocOf (rest : List Char) : List Char :=
  if "//".data.isPrefixOf rest then
    (rest.drop 2).takeWhile (fun c => !(c == '/' || c == '?' || c == '#'))
  else []

/-- `netloc.rpartition('@')[2]`: the part after the last `'@'`. -/
def afterLastAt (l : List Char) : List Char :=
  (l.reverse.takeWhile (fun c => !(c == '@'))).reverse

/-- The `hostname` property: strip userinfo, take the bracketed IPv6 host
or everything before the port colon, lowercase, and map `""` to `None`. -/
def hostnameOf (netloc : List Char) : Option (List Char) :=
  let hostinfo := afterLastAt netloc
  let h :=
    if hostinfo.contains '[' then
      ((hostinfo.dropWhile (fun c => !(c == '['))).drop 1).takeWhile (fun c => !(c == ']'))
    else hostinfo.takeWhile (fun c => !(c == ':'))
  if h = [] then none else some (pyLower h)

/-- The fields of `urlparse(url)` that `validate_url` reads. -/
structure UrlParts where
  scheme : List Char
  hostname : Option (List Char)
deriving DecidableEq, Repr

/-- `urlparse`, restricted to the consumed fields; `none` models a raised
`ValueError` (unbalanced IPv6 bracket in the netloc). -/
def urlparse (url : List Char) : Option UrlParts :=
  let p := splitScheme url
  let netloc := netlocOf p.2
  if (netloc.contains '[' && !netloc.contains ']') ||
     (netloc.contains ']' && !netloc.contains '[') then none
  else some ⟨p.1, hostnameOf netloc⟩

/-- `hostname and hostname.startswith(p)`. -/
def hostnameStarts (h : Option (List Char)) (p : List Char) : Bool :=
  match h with
  | none => false
  | some host => p.isPrefixOf host

/-- `validate_url` (lines 110-128), branch for branch. -/
def validate_url (url : List Char) : Bool :=
  match urlparse url with
  | none => false
  | some parsed =>
    if !(parsed.scheme == "http".data || parsed.scheme == "https".data) then false
    else if parsed.hostname == some "localhost".data ||
            parsed.hostname == some "127.0.0.1".data ||
            parsed.hostname == some "0.0.0.0".data then false
    else if hostnameStarts parsed.hostname "192.168.".data then false
    else if hostnameStarts parsed.hostname "10.".data then false
    else if hostnameStarts parsed.hostname "172.".data then false
    else true

/-! ## Lemmas about the chunk-slicing loop -/

theorem chunkContentGo_nil (f : Nat) : chunkContentGo f [] = [] := by
  cases f <;> simp [chunkContentGo]

theorem chunkContentGo_congr : ∀ f₁ f₂ c, c.length < f₁ → c.length < f₂ →
    chunkContentGo f₁ c = chunkContentGo f₂ c := by
  intro f₁
  induction f₁ with
  | zero => intro f₂ c h₁; omega
  | succ f ih =>
    intro f₂ c h₁ h₂
    match f₂, c with
    | f₂ + 1, [] => simp [chunkContentGo]
    | f₂ + 1, a :: t =>
      simp only [chunkContentGo, if_neg (List.cons_ne_nil a t)]
      have hlen : (List.drop 5000 (a :: t)).length < f := by
        simp only [List.length_drop, List.length_cons]
        simp only [List.length_cons] at h₁
        omega
      have hlen₂ : (List.drop 5000 (a :: t)).length < f₂ := by
        simp only [List.length_drop, List.length_cons]
        simp only [List.length_cons] at h₂
        omega
      rw [ih f₂ _ hlen hlen₂]

theorem chunkContent_eq (c : List Char) :
    chunkContent c = if c = [] then [] else c.take 5000 :: chunkContent (c.drop 5000) := by
  by_cases h : c = []
  · simp [h, chunkContent, chunkContentGo]
  · rw [if_neg h]
    match c, h with
    | a :: t, _ =>
      simp only [chunkContent, List.length_cons, chunkContentGo,
        if_neg (List.cons_ne_nil a t)]
      by_cases hd : List.drop 5000 (a :: t) = []
      · simp [hd]
      · have hdl := List.length_pos.mpr hd
        simp only [List.length_drop, List.length_cons] at hdl
        simp only [if_neg hd]
        rw [chunkContentGo_congr t.length (List.drop 5000 (a :: t)).length
              (List.drop 5000 (List.drop 5000 (a :: t)))
              (by simp only [List.length_drop, List.length_cons]; omega)
              (by simp only [List.length_drop, List.length_cons]; omega)]

/-- Concatenating the chunks reproduces the document (round-trip). -/
theorem chunkContent_flatten (c : List Char) : (chunkContent c).flatten = c := by
  have H : ∀ f c, List.length c < f → (chunkContentGo f c).flatten = c := by
    intro f
    induction f with
    | zero => intro c h; omega
    | succ f ih =>
      intro c h
      by_cases hc : c = []
      · simp [hc, chunkContentGo]
      · simp only [chunkContentGo, if_neg hc, List.flatten_cons]
        rw [ih (c.drop 5000) (by simp only [List.length_drop]; have : 0 < c.length := List.length_pos.mpr hc; omega)]
        exact List.take_append_drop 5000 c
  exact H _ c (Nat.lt_succ_self _)

/-- The number of chunks is `ceil(L / 5000)` (as `(L + 4999) / 5000`). -/
theorem chunkContent_length (c : List Char) :
    (chunkContent c).length = (c.length + 4999) / 5000 := by
  have H : ∀ f c, List.length c < f →
      (chunkContentGo f c).length = (List.length c + 4999) / 5000 := by
    intro f
    induction f with
    | zero => intro c h; omega
    | succ f ih =>
      intro c h
      by_cases hc : c = []
      · simp [hc, chunkContentGo]
      · have hpos : 0 < c.length := List.length_pos.mpr hc
        simp only [chunkContentGo, if_neg hc, List.length_cons]
        rw [ih (c.drop 5000) (by simp only [List.length_drop]; omega)]
        simp only [List.length_drop]
        omega
  exact H _ c (Nat.lt_succ_self _)

/-- Every chunk has at most 5000 characters. -/
theorem chunkContent_size_le (c : List Char) :
    ∀ x ∈ chunkContent c, x.length ≤ 5000 := by
  have H : ∀ f c, List.length c < f → ∀ x ∈ chunkContentGo f c, List.length x ≤ 5000 := by
    intro f
    induction f with
    | zero => intro c h; omega
    | succ f ih =>
      intro c h x hx
      by_cases hc : c = []
      · simp [hc, chunkContentGo] at hx
      · simp only [chunkContentGo, if_neg hc, List.mem_cons] at hx
        rcases hx with rfl | hx
        · simp [List.length_take]
        · exact ih (c.drop 5000)
            (by simp only [List.length_drop]; have : 0 < c.length := List.length_pos.mpr hc; omega) x hx
  exact H _ c (Nat.lt_succ_self _)

/-- Every chunk except possibly the last is exactly 5000 characters. -/
theorem chunkContent_size_eq (c : List Char) (i : Nat)
    (h : i + 1 < (chunkContent c).length) :
    ((chunkContent c).getD i []).length = 5000 := by
  have H : ∀ f c, List.length c < f → ∀ i, i + 1 < (chunkContentGo f c).length →
      ((chunkContentGo f c).getD i []).length = 5000 := by
    intro f
    induction f with
    | zero => intro c h; omega
    | succ f ih =>
      intro c hcf i hi
      by_cases hc : c = []
      · simp [hc, chunkContentGo] at hi
      · have hpos : 0 < c.length := List.length_pos.mpr hc
        simp only [chunkContentGo, if_neg hc, List.length_cons] at hi ⊢
        match i with
        | 0 =>
          simp only [List.getD_cons_zero, List.length_take]
          have h2 : 1 ≤ (chunkContentGo f (c.drop 5000)).length := by omega
          have h3 : c.drop 5000 ≠ [] := by
            intro he
            rw [he, chunkContentGo_nil] at h2
            simp at h2
          have : 5000 < c.length := by
            by_contra hle
            exact h3 (List.drop_eq_nil_of_le (by omega))
          omega
        | i + 1 =>
          simp only [List.getD_cons_succ]
          exact ih (c.drop 5000) (by simp only [List.length_drop]; omega) i (by omega)
  exact H _ c (Nat.lt_succ_self _) i h

/-! ## Lemmas about `strFind` and the capped match scan -/

theorem find_eq_head_of_filter {α : Type} (p : α → Bool) (l : List α) :
    l.find? p = (l.filter p).head? := by
  induction l with
  | nil => rfl
  | cons a t ih =>
    by_cases h : p a
    · rw [List.find?_cons_of_pos _ h, List.filter_cons_of_pos h, List.head?_cons]
    · rw [List.find?_cons_of_neg _ h, List.filter_cons_of_neg h, ih]

theorem allOccurrences_mem (hay sub : List Char) (p : Nat) :
    p ∈ allOccurrences hay sub ↔ isMatchAt hay sub p = true := by
  unfold allOccurrences
  simp only [List.mem_filter, List.mem_range]
  constructor
  · exact fun h => h.2
  · intro h
    have h1 : p + sub.length ≤ hay.length := by
      unfold isMatchAt at h
      exact of_decide_eq_true ((Bool.and_eq_true _ _).mp h).1
    exact ⟨by omega, h⟩

theorem allOccurrences_pairwise (hay sub : List Char) :
    (allOccurrences hay sub).Pairwise (· < ·) :=
  (List.pairwise_lt_range _).filter _

theorem strFind_eq_head (hay sub : List Char) (start : Nat) :
    strFind hay sub start =
      ((allOccurrences hay sub).filter (fun i => decide (start ≤ i))).head? := by
  unfold strFind allOccurrences
  rw [List.filter_filter, find_eq_head_of_filter]

/-- Dropping the head of the tail-from-`start` view of a sorted list:
after consuming the minimum `pos`, restarting from `pos + 1` yields the
tail. -/
theorem filter_ge_step {l : List Nat} (hl : l.Pairwise (· < ·)) {start pos : Nat}
    {t : List Nat} (h : l.filter (fun i => decide (start ≤ i)) = pos :: t) :
    l.filter (fun i => decide (pos + 1 ≤ i)) = t := by
  induction l with
  | nil => simp at h
  | cons a rest ih =>
    have hrest := (List.pairwise_cons.mp hl).2
    have ha := (List.pairwise_cons.mp hl).1
    by_cases hs : start ≤ a
    · rw [List.filter_cons_of_pos (by simpa using hs)] at h
      injection h with h1 h2
      subst h1
      rw [List.filter_cons_of_neg (by simp only [decide_eq_true_eq]; omega)]
      rw [← h2]
      apply List.filter_congr
      intro x hx
      have hax := ha x hx
      rw [decide_eq_decide]
      constructor <;> intro <;> omega
    · rw [List.filter_cons_of_neg (by simpa using hs)] at h
      rw [List.filter_cons_of_neg]
      · exact ih hrest h
      · have hin : pos ∈ rest.filter (fun i => decide (start ≤ i)) := by
          rw [h]
          exact List.mem_cons_self _ _
        have hmem := (List.mem_filter.mp hin).1
        have hap := ha pos hmem
        simp only [decide_eq_true_eq]
        omega

theorem findAllCappedGo_eq (hay nee : List Char) (cap : Nat) :
    ∀ fuel start count, hay.length + 1 ≤ fuel + start →
    findAllCappedGo hay nee cap fuel start count =
      ((allOccurrences hay nee).filter (fun i => decide (start ≤ i))).take
        (max (cap - count) 1) := by
  intro fuel
  induction fuel with
  | zero =>
    intro start count hf
    have hnil : (allOccurrences hay nee).filter (fun i => decide (start ≤ i)) = [] := by
      rw [List.filter_eq_nil_iff]
      intro a ha
      have hm := (allOccurrences_mem hay nee a).mp ha
      unfold isMatchAt at hm
      have h1 := of_decide_eq_true ((Bool.and_eq_true _ _).mp hm).1
      simp only [decide_eq_true_eq]
      omega
    rw [hnil, List.take_nil]
    rfl
  | succ fuel ih =>
    intro start count hf
    have hunf : findAllCappedGo hay nee cap (fuel + 1) start count =
        match strFind hay nee start with
        | none => []
        | some pos =>
          if cap ≤ count + 1 then [pos]
          else pos :: findAllCappedGo hay nee cap fuel (pos + 1) (count + 1) := rfl
    rw [hunf, strFind_eq_head]
    cases h : (allOccurrences hay nee).filter (fun i => decide (start ≤ i)) with
    | nil => rw [List.take_nil]; rfl
    | cons pos t =>
      have hstep := filter_ge_step (allOccurrences_pairwise hay nee) h
      have hpos_in : pos ∈ (allOccurrences hay nee).filter (fun i => decide (start ≤ i)) := by
        rw [h]
        exact List.mem_cons_self _ _
      have hstart_le : start ≤ pos := of_decide_eq_true (List.mem_filter.mp hpos_in).2
      show (if cap ≤ count + 1 then [pos]
          else pos :: findAllCappedGo hay nee cap fuel (pos + 1) (count + 1)) =
        List.take (max (cap - count) 1) (pos :: t)
      by_cases hcap : cap ≤ count + 1
      · rw [if_pos hcap]
        have hmax : max (cap - count) 1 = 1 := by omega
        rw [hmax]
        rfl
      · rw [if_neg hcap]
        rw [ih (pos + 1) (count + 1) (by omega), hstep]
        have hmax : max (cap - count) 1 = (max (cap - (count + 1)) 1) + 1 := by omega
        rw [hmax, List.take_succ_cons]

/-- The scan of `_search_on_page_impl` collects exactly the first
`max cap 1` occurrences (the cap test runs only after an append, so even
`cap = 0` admits one hit). -/
theorem findAllCapped_eq (hay nee : List Char) (cap : Nat) :
    findAllCapped hay nee cap = (allOccurrences hay nee).take (max cap 1) := by
  unfold findAllCapped
  rw [findAllCappedGo_eq hay nee cap (hay.length + 1) 0 0 (by omega)]
  have h1 : max (cap - 0) 1 = max cap 1 := by omega
  rw [h1]
  congr 1
  rw [List.filter_eq_self]
  intro a _
  simp

/-- If `sub` occurs at some position `p ≥ start`, Python `find` succeeds
and returns a position that is at most `p`. -/
theorem strFind_some_le (hay sub : List Char) (start p : Nat)
    (hp : isMatchAt hay sub p = true) (hsp : start ≤ p) :
    ∃ m, strFind hay sub start = some m ∧ m ≤ p := by
  rw [strFind_eq_head]
  have hin : p ∈ (allOccurrences hay sub).filter (fun i => decide (start ≤ i)) := by
    rw [List.mem_filter]
    exact ⟨(allOccurrences_mem hay sub p).mpr hp, by simpa using hsp⟩
  cases hl : (allOccurrences hay sub).filter (fun i => decide (start ≤ i)) with
  | nil => rw [hl] at hin; simp at hin
  | cons m t =>
    refine ⟨m, rfl, ?_⟩
    rw [hl] at hin
    rcases List.mem_cons.mp hin with rfl | hin
    · exact le_rfl
    · have hpw := (allOccurrences_pairwise hay sub).filter (fun i => decide (start ≤ i))
      rw [hl] at hpw
      exact le_of_lt ((List.pairwise_cons.mp hpw).1 p hin)

/-- What a successful `find` returns: the least occurrence position `≥ start`. -/
theorem strFind_spec (hay sub : List Char) (start m : Nat)
    (h : strFind hay sub start = some m) :
    start ≤ m ∧ isMatchAt hay sub m = true ∧
      ∀ j, start ≤ j → j < m → isMatchAt hay sub j = false := by
  rw [strFind_eq_head] at h
  cases hl : (allOccurrences hay sub).filter (fun i => decide (start ≤ i)) with
  | nil => rw [hl] at h; simp at h
  | cons x t =>
    rw [hl] at h
    simp only [List.head?_cons, Option.some.injEq] at h
    rw [h] at hl
    have hin : m ∈ (allOccurrences hay sub).filter (fun i => decide (start ≤ i)) := by
      rw [hl]; exact List.mem_cons_self _ _
    have h1 := of_decide_eq_true (List.mem_filter.mp hin).2
    have h2 := (allOccurrences_mem hay sub m).mp (List.mem_filter.mp hin).1
    refine ⟨h1, h2, ?_⟩
    intro j hsj hjm
    by_contra hj
    have hjmem : j ∈ (allOccurrences hay sub).filter (fun i => decide (start ≤ i)) := by
      rw [List.mem_filter]
      refine ⟨(allOccurrences_mem hay sub j).mpr ?_, by simpa using hsj⟩
      revert hj
      cases isMatchAt hay sub j <;> simp
    rw [hl] at hjmem
    rcases List.mem_cons.mp hjmem with rfl | hjmem
    · omega
    · have hpw := (allOccurrences_pairwise hay sub).filter (fun i => decide (start ≤ i))
      rw [hl] at hpw
      have := (List.pairwise_cons.mp hpw).1 j hjmem
      omega

/-! ## Lemmas about the session manager -/

theorem setSession_sessions_same (m : SessionManager) (sid : Nat) (r : SessionRec) :
    (m.setSession sid r).sessions sid = some r := by
  simp [SessionManager.setSession]

theorem setSession_sessions_other (m : SessionManager) (sid k : Nat) (r : SessionRec)
    (h : k ≠ sid) : (m.setSession sid r).sessions k = m.sessions k := by
  simp [SessionManager.setSession, h]

theorem setSession_timeout (m : SessionManager) (sid : Nat) (r : SessionRec) :
    (m.setSession sid r).timeout = m.timeout := rfl

theorem cleanup_timeout (m : SessionManager) (now : Nat) :
    (m.cleanup now).timeout = m.timeout := rfl

theorem cleanup_sessions_eq (m : SessionManager) (now k : Nat) :
    (m.cleanup now).sessions k =
      match m.sessions k with
      | some s => if m.timeout < now - s.lastUsed then none else some s
      | none => none := rfl

theorem cleanup_sessions_of_live (m : SessionManager) (now k : Nat) (s : SessionRec)
    (h : m.sessions k = some s) (hl : ¬ m.timeout < now - s.lastUsed) :
    (m.cleanup now).sessions k = some s := by
  rw [cleanup_sessions_eq, h]
  simp [hl]

theorem cleanup_sessions_of_expired (m : SessionManager) (now k : Nat) (s : SessionRec)
    (h : m.sessions k = some s) (hl : m.timeout < now - s.lastUsed) :
    (m.cleanup now).sessions k = none := by
  rw [cleanup_sessions_eq, h]
  simp [hl]

/-- Sweeping twice at the same instant changes nothing. -/
theorem cleanup_cleanup (m : SessionManager) (now : Nat) :
    (m.cleanup now).cleanup now = m.cleanup now := by
  unfold SessionManager.cleanup
  simp only
  congr 1
  funext k
  cases h : m.sessions k with
  | none => simp
  | some s =>
    by_cases hl : m.timeout < now - s.lastUsed <;> simp [hl]

/-- Sweeping after writing a record whose `lastUsed` is the sweep instant
commutes to a sweep before the write. -/
theorem cleanup_setSession_now (m : SessionManager) (now sid : Nat) (r : SessionRec)
    (hr : r.lastUsed = now) :
    (m.setSession sid r).cleanup now = (m.cleanup now).setSession sid r := by
  unfold SessionManager.cleanup SessionManager.setSession
  simp only
  congr 1
  funext k
  by_cases hk : k = sid
  · simp [hk, hr]
  · simp [hk]

theorem getSession_of_missing (m : SessionManager) (now sid : Nat)
    (h : (m.cleanup now).sessions sid = none) :
    m.getSession now sid = (none, m.cleanup now) := by
  unfold SessionManager.getSession
  simp [h]

theorem getSession_of_live (m : SessionManager) (now sid : Nat) (s : SessionRec)
    (h : m.sessions sid = some s) (hl : ¬ m.timeout < now - s.lastUsed) :
    m.getSession now sid =
      (some { s with lastUsed := now },
       (m.cleanup now).setSession sid { s with lastUsed := now }) := by
  unfold SessionManager.getSession
  simp [cleanup_sessions_of_live m now sid s h hl]

theorem getSession_of_expired (m : SessionManager) (now sid : Nat) (s : SessionRec)
    (h : m.sessions sid = some s) (hl : m.timeout < now - s.lastUsed) :
    m.getSession now sid = (none, m.cleanup now) :=
  getSession_of_missing m now sid (cleanup_sessions_of_expired m now sid s h hl)

theorem getSession_of_none (m : SessionManager) (now sid : Nat)
    (h : m.sessions sid = none) :
    m.getSession now sid = (none, m.cleanup now) := by
  apply getSession_of_missing
  rw [cleanup_sessions_eq, h]

/-! ## The cooked form of `visit_page` -/

/-- A successful `visit_page` stores the freshly chunked content under the
fresh session id with the cursor at 0 and both timestamps at `now`, and
returns the formatted first chunk.  The Python `if session:` guard always
takes the truthy branch: the record written by `create_session` has
`last_used = now`, so the sweep inside `get_session` cannot remove it. -/
theorem visit_page_impl_eq (content : List Char) (now : Nat) (st : ServerState) :
    visit_page_impl content now st =
      (.ok (if chunkContent content = [] then "Chunk 0\n".data
            else formatChunk 0 ((chunkContent content).headD []))
         0 (decide ((chunkContent content).length > 1)),
       { st with
         manager :=
           (((st.manager.createSession now st.nextSessionId).cleanup now).setSession
               st.nextSessionId ⟨now, now, none, 0⟩).setSession st.nextSessionId
             ⟨now, now, some (chunkContent content), 0⟩,
         currentSessionContext := some st.nextSessionId,
         nextSessionId := st.nextSessionId + 1 }) := by
  simp only [visit_page_impl]
  rw [getSession_of_live (st.manager.createSession now st.nextSessionId) now
      st.nextSessionId ⟨now, now, none, 0⟩
      (setSession_sessions_same _ _ _) (by simp)]

/-! ## Claim C1 -/

/-- C1 (amended): chunking a document of length `L > 0` at size 5000
stores exactly `ceil(L/5000)` chunks in the session, each at most 5000
characters with only the last possibly shorter, and concatenation
round-trips; for `L = 0` the session stores an *empty* chunk list (not a
single empty chunk) while the returned result still shows an empty
"Chunk 0" with `has_more_chunks = false`. -/
theorem claim1_chunking (content : List Char) (now : Nat) (st : ServerState) :
    ((visit_page_impl content now st).2).manager.sessions st.nextSessionId =
      some ⟨now, now, some (chunkContent content), 0⟩ ∧
    (chunkContent content).flatten = content ∧
    (content ≠ [] →
      (chunkContent content).length = (content.length + 5000 - 1) / 5000) ∧
    (∀ x ∈ chunkContent content, x.length ≤ 5000) ∧
    (∀ i, i + 1 < (chunkContent content).length →
      ((chunkContent content).getD i []).length = 5000) ∧
    (content = [] → chunkContent content = [] ∧
      (visit_page_impl content now st).1 = .ok "Chunk 0\n".data 0 false) := by
  refine ⟨?_, chunkContent_flatten content, fun _ => chunkContent_length content,
    chunkContent_size_le content, chunkContent_size_eq content, ?_⟩
  · rw [visit_page_impl_eq]
    exact setSession_sessions_same _ _ _
  · intro h
    subst h
    have hnil : chunkContent [] = [] := rfl
    refine ⟨hnil, ?_⟩
    rw [visit_page_impl_eq, hnil]
    rfl

theorem claim1_chunking_witness :
    (("ab".data ≠ []) ∧
      (chunkContent "ab".data).length = ("ab".data.length + 5000 - 1) / 5000) ∧
    (chunkContent "ab".data).flatten = "ab".data := by
  refine ⟨⟨by decide, ?_⟩, (claim1_chunking "ab".data 0 initialServerState).2.1⟩
  exact (claim1_chunking "ab".data 0 initialServerState).2.2.1 (by decide)

/-- C1, counterexample to the claim as stated: after visiting an empty
document the session's stored chunk list is `[]` — zero chunks, not the
single empty chunk the claim asserts. -/
theorem claim1_empty_counterexample :
    ((visit_page_impl [] 0 initialServerState).2).manager.sessions 0 =
      some ⟨0, 0, some [], 0⟩ ∧
    ¬ ((chunkContent ([] : List Char)).length = 1) := by
  constructor
  · rfl
  · decide

/-! ## Claim C9 -/

/-- C9: every `get_session` lookup first sweeps all sessions idle longer
than the timeout (default 30 minutes) and refreshes a found session's
`last_used`; consequently an expired session is never returned to any of
the four readers, even though its record was still in memory when the
call began. -/
theorem claim9_eviction :
    (∀ (m : SessionManager) (now sid : Nat) (s : SessionRec),
        m.sessions sid = some s → m.timeout < now - s.lastUsed →
        (m.getSession now sid).1 = none ∧ (m.getSession now sid).2.sessions sid = none) ∧
    (∀ (m : SessionManager) (now sid sid' : Nat) (s' : SessionRec),
        m.sessions sid' = some s' → m.timeout < now - s'.lastUsed →
        (m.getSession now sid).2.sessions sid' = none) ∧
    (∀ (m : SessionManager) (now sid : Nat) (s : SessionRec),
        m.sessions sid = some s → ¬ m.timeout < now - s.lastUsed →
        (m.getSession now sid).1 = some { s with lastUsed := now }) ∧
    SessionManager.empty.timeout = defaultSessionTimeoutMinutes ∧
    (∀ (st : ServerState) (now sid : Nat) (s : SessionRec) (i : Int)
        (text : List Char) (n : Nat),
        st.currentSessionContext = some sid → st.manager.sessions sid = some s →
        st.manager.timeout < now - s.lastUsed →
        (load_more_impl now st).1 = .sessionNotFound sid ∧
        (read_chunk_impl i now st).1 = .sessionNotFound sid ∧
        (search_on_page_impl text n now st).1 = .sessionNotFound sid) ∧
    (∀ (st : ServerState) (now : Nat) (ctx : SearchContext) (s : SessionRec) (n : Nat),
        st.searchContext = some ctx → ctx.searchText ≠ [] →
        st.manager.sessions ctx.sessionId = some s →
        st.manager.timeout < now - s.lastUsed →
        (search_next_on_page_impl n now st).1 = .sessionNotFound ctx.sessionId) := by
  refine ⟨?_, ?_, ?_, rfl, ?_, ?_⟩
  · intro m now sid s h hexp
    rw [getSession_of_expired m now sid s h hexp]
    exact ⟨rfl, cleanup_sessions_of_expired m now sid s h hexp⟩
  · intro m now sid sid' s' h hexp
    simp only [SessionManager.getSession]
    cases hc : (m.cleanup now).sessions sid with
    | none => exact cleanup_sessions_of_expired m now sid' s' h hexp
    | some s0 =>
      simp only
      by_cases hk : sid' = sid
      · subst hk
        rw [cleanup_sessions_of_expired m now sid' s' h hexp] at hc
        exact absurd hc (by simp)
      · rw [setSession_sessions_other _ _ _ _ hk]
        exact cleanup_sessions_of_expired m now sid' s' h hexp
  · intro m now sid s h hlive
    rw [getSession_of_live m now sid s h hlive]
  · intro st now sid s i text n hctx hsid hexp
    have hget := getSession_of_expired st.manager now sid s hsid hexp
    refine ⟨?_, ?_, ?_⟩
    · simp only [load_more_impl, hctx, hget]
    · simp only [read_chunk_impl, hctx, hget]
    · simp only [search_on_page_impl, hctx, hget]
  · intro st now ctx s n hsctx htext hsid hexp
    have hget := getSession_of_expired st.manager now ctx.sessionId s hsid hexp
    simp only [search_next_on_page_impl, hsctx, if_neg htext, hget]

theorem claim9_eviction_witness :
    ((SessionManager.empty.setSession 0 ⟨0, 0, none, 0⟩).sessions 0 = some ⟨0, 0, none, 0⟩ ∧
      (SessionManager.empty.setSession 0 ⟨0, 0, none, 0⟩).timeout < 31 - (0 : Nat)) ∧
    ((SessionManager.empty.setSession 0 ⟨0, 0, none, 0⟩).getSession 31 0).1 = none := by
  refine ⟨⟨by decide, by decide⟩, ?_⟩
  exact (claim9_eviction.1 (SessionManager.empty.setSession 0 ⟨0, 0, none, 0⟩) 31 0
    ⟨0, 0, none, 0⟩ (by decide) (by decide)).1

/-! ## Stability of the store under repeated access at one instant -/

theorem SessionRec.refresh_self (r : SessionRec) (now : Nat) (h : r.lastUsed = now) :
    { r with lastUsed := now } = r := by
  cases r
  simp only at h
  rw [h]

theorem setSession_setSession (m : SessionManager) (sid : Nat) (r r' : SessionRec) :
    (m.setSession sid r).setSession sid r' = m.setSession sid r' := by
  unfold SessionManager.setSession
  simp only
  congr 1
  funext k
  by_cases hk : k = sid <;> simp [hk]

theorem setSession_eq_self (m : SessionManager) (sid : Nat) (r : SessionRec)
    (h : m.sessions sid = some r) : m.setSession sid r = m := by
  unfold SessionManager.setSession
  cases m with
  | mk f t =>
    simp only [SessionManager.mk.injEq, and_true]
    funext k
    by_cases hk : k = sid
    · subst hk
      simp only [if_pos rfl]
      exact h.symm
    · simp [hk]

/-- A store is *stable at `now`* if a sweep at `now` does not change it. -/
def StableAt (now : Nat) (m : SessionManager) : Prop := m.cleanup now = m

theorem stableAt_cleanup (m : SessionManager) (now : Nat) : StableAt now (m.cleanup now) :=
  cleanup_cleanup m now

theorem StableAt.setSession {m : SessionManager} {now : Nat} (hm : StableAt now m)
    (sid : Nat) (r : SessionRec) (hr : r.lastUsed = now) :
    StableAt now (m.setSession sid r) := by
  unfold StableAt
  rw [cleanup_setSession_now m now sid r hr, hm]

/-- `get_session` on the state it itself produced, at the same instant:
everything it would do has already happened. -/
theorem getSession_of_stable_hit (m : SessionManager) (now sid : Nat) (r : SessionRec)
    (hm : StableAt now m) (h : m.sessions sid = some r) (hr : r.lastUsed = now) :
    m.getSession now sid = (some r, m) := by
  unfold SessionManager.getSession
  unfold StableAt at hm
  simp only [hm, h]
  rw [SessionRec.refresh_self r now hr, setSession_eq_self m sid r h]

/-- The positive branch of `get_session`, phrased on the swept store. -/
theorem getSession_of_cleanup_hit (m : SessionManager) (now sid : Nat) (s : SessionRec)
    (h : (m.cleanup now).sessions sid = some s) :
    m.getSession now sid =
      (some { s with lastUsed := now },
       (m.cleanup now).setSession sid { s with lastUsed := now }) := by
  unfold SessionManager.getSession
  simp [h]

/-! ## `read_chunk` / `load_more` commutation -/

/-- The state left by `read_chunk` when the current session misses. -/
theorem read_chunk_state_of_missing (i : Int) (now : Nat) (st : ServerState) (sid : Nat)
    (hctx : st.currentSessionContext = some sid)
    (hc : (st.manager.cleanup now).sessions sid = none) :
    (read_chunk_impl i now st).2 = { st with manager := st.manager.cleanup now } := by
  simp only [read_chunk_impl, hctx, getSession_of_missing st.manager now sid hc]

/-- The state left by `read_chunk` on a hit: only the refreshed record is
written back; chunks and cursor are untouched. -/
theorem read_chunk_state_of_hit (i : Int) (now : Nat) (st : ServerState) (sid : Nat)
    (s0 : SessionRec) (hctx : st.currentSessionContext = some sid)
    (hc : (st.manager.cleanup now).sessions sid = some s0) :
    (read_chunk_impl i now st).2 =
      { st with manager := ((st.manager.cleanup now).setSession sid
          { s0 with lastUsed := now }) } := by
  simp only [read_chunk_impl, hctx, getSession_of_cleanup_hit st.manager now sid s0 hc]
  cases hck : s0.contentChunks with
  | none => simp only [hck]
  | some chunks =>
    simp only [hck]
    by_cases hr : i < 0 ∨ (chunks.length : Int) ≤ i
    · rw [if_pos hr]
    · rw [if_neg hr]

/-- A `read_chunk` call commutes out of a following `load_more`: at one
instant it neither changes what `load_more` returns nor the state
`load_more` leaves. -/
theorem load_more_after_read_chunk (i : Int) (now : Nat) (st : ServerState) :
    load_more_impl now ((read_chunk_impl i now st).2) = load_more_impl now st := by
  cases hctx : st.currentSessionContext with
  | none =>
    have h2 : (read_chunk_impl i now st).2 = st := by
      simp only [read_chunk_impl, hctx]
    rw [h2]
  | some sid =>
    cases hc : (st.manager.cleanup now).sessions sid with
    | none =>
      rw [read_chunk_state_of_missing i now st sid hctx hc]
      have hgetL : (st.manager.cleanup now).getSession now sid =
          (none, st.manager.cleanup now) := by
        have h0 := getSession_of_missing (st.manager.cleanup now) now sid
          (by rw [cleanup_cleanup]; exact hc)
        rw [cleanup_cleanup] at h0
        exact h0
      simp only [load_more_impl, hctx, getSession_of_missing st.manager now sid hc, hgetL]
    | some s0 =>
      rw [read_chunk_state_of_hit i now st sid s0 hctx hc]
      have hget := getSession_of_cleanup_hit st.manager now sid s0 hc
      have hstab : StableAt now ((st.manager.cleanup now).setSession sid
          { s0 with lastUsed := now }) :=
        (stableAt_cleanup _ _).setSession sid _ rfl
      have hgetM := getSession_of_stable_hit _ now sid _ hstab
        (setSession_sessions_same (st.manager.cleanup now) sid
          { s0 with lastUsed := now }) rfl
      cases hck : s0.contentChunks with
      | none =>
        simp only [hck] at hget hgetM
        simp only [load_more_impl, hctx, hget, hgetM, hck]
      | some chunks =>
        simp only [hck] at hget hgetM
        simp only [load_more_impl, hctx, hget, hgetM, hck]

/-- Symmetrically, a preceding `load_more` does not change what
`read_chunk` returns. -/
theorem read_chunk_after_load_more (i : Int) (now : Nat) (st : ServerState) :
    (read_chunk_impl i now ((load_more_impl now st).2)).1 =
      (read_chunk_impl i now st).1 := by
  cases hctx : st.currentSessionContext with
  | none =>
    have h2 : (load_more_impl now st).2 = st := by
      simp only [load_more_impl, hctx]
    rw [h2]
  | some sid =>
    cases hc : (st.manager.cleanup now).sessions sid with
    | none =>
      have h2 : (load_more_impl now st).2 =
          { st with manager := st.manager.cleanup now } := by
        simp only [load_more_impl, hctx, getSession_of_missing st.manager now sid hc]
      rw [h2]
      have hgetL : (st.manager.cleanup now).getSession now sid =
          (none, st.manager.cleanup now) := by
        have h0 := getSession_of_missing (st.manager.cleanup now) now sid
          (by rw [cleanup_cleanup]; exact hc)
        rw [cleanup_cleanup] at h0
        exact h0
      simp only [read_chunk_impl, hctx, getSession_of_missing st.manager now sid hc, hgetL]
    | some s0 =>
      have hget := getSession_of_cleanup_hit st.manager now sid s0 hc
      cases hck : s0.contentChunks with
      | none =>
        simp only [hck] at hget
        have h2 : (load_more_impl now st).2 = { st with manager :=
            ((st.manager.cleanup now).setSession sid
              { s0 with lastUsed := now, contentChunks := none }) } := by
          simp only [load_more_impl, hctx, hget]
        rw [h2]
        have hstab : StableAt now ((st.manager.cleanup now).setSession sid
            { s0 with lastUsed := now, contentChunks := none }) :=
          (stableAt_cleanup _ _).setSession sid _ rfl
        have hgetM := getSession_of_stable_hit _ now sid _ hstab
          (setSession_sessions_same (st.manager.cleanup now) sid
            { s0 with lastUsed := now, contentChunks := none }) rfl
        simp only [read_chunk_impl, hctx, hget, hgetM]
      | some chunks =>
        simp only [hck] at hget
        by_cases hlt : s0.currentChunkIndex + 1 < chunks.length
        · have h2 : (load_more_impl now st).2 = { st with manager := ((st.manager.cleanup now).setSession sid { s0 with lastUsed := now, contentChunks := some chunks, currentChunkIndex := s0.currentChunkIndex + 1 }) } := by
            simp only [load_more_impl, hctx, hget]
            rw [if_pos hlt, setSession_setSession]
          rw [h2]
          have hstab2 : StableAt now ((st.manager.cleanup now).setSession sid { s0 with lastUsed := now, contentChunks := some chunks, currentChunkIndex := s0.currentChunkIndex + 1 }) :=
            (stableAt_cleanup _ _).setSession sid _ rfl
          have hgetM := getSession_of_stable_hit _ now sid _ hstab2
            (setSession_sessions_same _ _ _) rfl
          simp only [read_chunk_impl, hctx, hget, hgetM]
          by_cases hr : i < 0 ∨ (chunks.length : Int) ≤ i
          · rw [if_pos hr, if_pos hr]
          · rw [if_neg hr, if_neg hr]
        · have h2 : (load_more_impl now st).2 = { st with manager := ((st.manager.cleanup now).setSession sid { s0 with lastUsed := now, contentChunks := some chunks }) } := by
            simp only [load_more_impl, hctx, hget]
            rw [if_neg hlt]
          rw [h2]
          have hstab : StableAt now ((st.manager.cleanup now).setSession sid { s0 with lastUsed := now, contentChunks := some chunks }) :=
            (stableAt_cleanup _ _).setSession sid _ rfl
          have hgetM := getSession_of_stable_hit _ now sid _ hstab
            (setSession_sessions_same (st.manager.cleanup now) sid { s0 with lastUsed := now, contentChunks := some chunks }) rfl
          simp only [read_chunk_impl, hctx, hget, hgetM]

theorem loadMoreN_after_read_chunk (n : Nat) (i : Int) (now : Nat) (st : ServerState) :
    (loadMoreN n now ((read_chunk_impl i now st).2)).1 = (loadMoreN n now st).1 := by
  cases n with
  | zero => rfl
  | succ n => simp only [loadMoreN, load_more_after_read_chunk i now st]

theorem read_chunk_after_loadMoreN (n : Nat) (i : Int) (now : Nat) (st : ServerState) :
    (read_chunk_impl i now ((loadMoreN n now st).2)).1 = (read_chunk_impl i now st).1 := by
  induction n generalizing st with
  | zero => rfl
  | succ n ih =>
    have hstep : (loadMoreN (n + 1) now st).2 = (loadMoreN n now ((load_more_impl now st).2)).2 := by
      simp only [loadMoreN]
    rw [hstep, ih ((load_more_impl now st).2), read_chunk_after_load_more]

/-- A demonstration state: one live session holding `chunks`, the
current-session pointer on it, no search context. -/
def demoState (chunks : List (List Char)) : ServerState :=
  ⟨SessionManager.empty.setSession 0 ⟨0, 0, some chunks, 0⟩, some 0, none, 1⟩

/-! ## Claim C6 -/

/-- C6: `read_chunk(i)` returns exactly the text stored at position `i`
of the chunk list made at session creation and leaves chunks, cursor and
both global pointers untouched (only `last_used` is refreshed);
consequently any number of `load_more` calls return the same results
whether or not `read_chunk` calls are interleaved, and `read_chunk`
returns the same value no matter how many `load_more` calls preceded it. -/
theorem claim6_read_chunk_frame :
    (∀ (st : ServerState) (now sid : Nat) (s : SessionRec) (chunks : List (List Char))
        (i : Int),
        st.currentSessionContext = some sid → st.manager.sessions sid = some s →
        ¬ st.manager.timeout < now - s.lastUsed → s.contentChunks = some chunks →
        ¬ (i < 0 ∨ (chunks.length : Int) ≤ i) →
        (read_chunk_impl i now st).1 =
          .ok i (chunks.getD i.toNat []) chunks.length (chunks.getD i.toNat []).length ∧
        (read_chunk_impl i now st).2.manager.sessions sid =
          some ⟨s.createdAt, now, s.contentChunks, s.currentChunkIndex⟩ ∧
        (read_chunk_impl i now st).2.currentSessionContext = st.currentSessionContext ∧
        (read_chunk_impl i now st).2.searchContext = st.searchContext) ∧
    (∀ (n : Nat) (i : Int) (now : Nat) (st : ServerState),
        (loadMoreN n now ((read_chunk_impl i now st).2)).1 = (loadMoreN n now st).1) ∧
    (∀ (n : Nat) (i : Int) (now : Nat) (st : ServerState),
        (read_chunk_impl i now ((loadMoreN n now st).2)).1 = (read_chunk_impl i now st).1) := by
  refine ⟨?_, loadMoreN_after_read_chunk, read_chunk_after_loadMoreN⟩
  intro st now sid s chunks i hctx hsid hlive hchunks hrange
  have hget := getSession_of_live st.manager now sid s hsid hlive
  refine ⟨?_, ?_, ?_, ?_⟩ <;>
    simp only [read_chunk_impl, hctx, hget, hchunks, if_neg hrange]
  exact setSession_sessions_same _ _ _

theorem claim6_read_chunk_frame_witness :
    (read_chunk_impl 1 0 (demoState [['a'], ['b']])).1 = .ok 1 ['b'] 2 1 ∧
    (loadMoreN 2 0 ((read_chunk_impl 1 0 (demoState [['a'], ['b']])).2)).1 =
      (loadMoreN 2 0 (demoState [['a'], ['b']])).1 := by
  constructor
  · exact (claim6_read_chunk_frame.1 (demoState [['a'], ['b']]) 0 0 ⟨0, 0, some [['a'], ['b']], 0⟩
      [['a'], ['b']] 1 (by decide) (by decide) (by decide) (by decide) (by decide)).1
  · exact claim6_read_chunk_frame.2.1 2 1 0 (demoState [['a'], ['b']])

/-! ## Claim C7 -/

/-- C7: for an out-of-range index (negative or `≥ k`) `read_chunk`
returns a structured result whose error field names the valid range
`0` to `k-1`, leaves the session's chunks and cursor unchanged, and —
being a total function in this model, like the Python `try`-guarded
original — raises nothing. -/
theorem claim7_read_chunk_out_of_range (st : ServerState) (now sid : Nat) (s : SessionRec)
    (chunks : List (List Char)) (i : Int)
    (hctx : st.currentSessionContext = some sid)
    (hsid : st.manager.sessions sid = some s)
    (hlive : ¬ st.manager.timeout < now - s.lastUsed)
    (hchunks : s.contentChunks = some chunks)
    (hrange : i < 0 ∨ (chunks.length : Int) ≤ i) :
    (read_chunk_impl i now st).1 =
      .outOfRange sid i (outOfRangeMsg i chunks.length) chunks.length ∧
    outOfRangeMsg i chunks.length =
      "Chunk index ".data ++ (Int.repr i).data ++
        " is out of range. Available chunks: 0 to ".data ++
        (Int.repr ((chunks.length : Int) - 1)).data ∧
    (read_chunk_impl i now st).2.manager.sessions sid =
      some ⟨s.createdAt, now, s.contentChunks, s.currentChunkIndex⟩ ∧
    (read_chunk_impl i now st).2.currentSessionContext = st.currentSessionContext ∧
    (read_chunk_impl i now st).2.searchContext = st.searchContext := by
  have hget := getSession_of_live st.manager now sid s hsid hlive
  refine ⟨?_, rfl, ?_, ?_, ?_⟩ <;>
    simp only [read_chunk_impl, hctx, hget, hchunks, if_pos hrange]
  exact setSession_sessions_same _ _ _

theorem claim7_read_chunk_out_of_range_witness :
    (read_chunk_impl 5 0 (demoState [['a'], ['b']])).1 =
      .outOfRange 0 5 (outOfRangeMsg 5 2) 2 ∧
    outOfRangeMsg 5 2 = "Chunk index 5 is out of range. Available chunks: 0 to 1".data := by
  have h := claim7_read_chunk_out_of_range (demoState [['a'], ['b']]) 0 0
    ⟨0, 0, some [['a'], ['b']], 0⟩ [['a'], ['b']] 5 (by decide) (by decide) (by decide)
    (by decide) (by decide)
  exact ⟨h.1, by decide⟩

/-! ## Claim C3 -/

/-- One successful `load_more` step, cooked. -/
theorem load_more_impl_success (st : ServerState) (now sid : Nat) (s : SessionRec)
    (chunks : List (List Char))
    (hctx : st.currentSessionContext = some sid)
    (hsid : st.manager.sessions sid = some s)
    (hlive : ¬ st.manager.timeout < now - s.lastUsed)
    (hchunks : s.contentChunks = some chunks)
    (hlt : s.currentChunkIndex + 1 < chunks.length) :
    load_more_impl now st =
      (.success (loadedMsg (s.currentChunkIndex + 1))
         (formatChunk (s.currentChunkIndex + 1) (chunks.getD (s.currentChunkIndex + 1) []))
         (s.currentChunkIndex + 1)
         (decide (s.currentChunkIndex + 1 < chunks.length - 1)),
       { st with manager := ((st.manager.cleanup now).setSession sid { s with lastUsed := now, currentChunkIndex := s.currentChunkIndex + 1 }) }) := by
  have hget := getSession_of_live st.manager now sid s hsid hlive
  simp only [load_more_impl, hctx, hget, hchunks]
  rw [if_pos hlt, setSession_setSession]

/-- The terminal `load_more` step, cooked. -/
theorem load_more_impl_complete (st : ServerState) (now sid : Nat) (s : SessionRec)
    (chunks : List (List Char))
    (hctx : st.currentSessionContext = some sid)
    (hsid : st.manager.sessions sid = some s)
    (hlive : ¬ st.manager.timeout < now - s.lastUsed)
    (hchunks : s.contentChunks = some chunks)
    (hge : ¬ s.currentChunkIndex + 1 < chunks.length) :
    load_more_impl now st =
      (.complete "No more chunks available".data s.currentChunkIndex false,
       { st with manager := ((st.manager.cleanup now).setSession sid { s with lastUsed := now }) }) := by
  have hget := getSession_of_live st.manager now sid s hsid hlive
  simp only [load_more_impl, hctx, hget, hchunks]
  rw [if_neg hge]

/-- `N` successive `load_more` calls from cursor position `c` deliver the
chunks `c+1 … c+N` in order, each tagged `has_more_chunks` iff it is not
the final chunk, and leave the cursor at `c+N`. -/
theorem loadMoreN_spec : ∀ (N : Nat) (st : ServerState) (now sid : Nat) (s : SessionRec)
    (chunks : List (List Char)),
    st.currentSessionContext = some sid →
    st.manager.sessions sid = some s →
    ¬ st.manager.timeout < now - s.lastUsed →
    s.contentChunks = some chunks →
    s.currentChunkIndex + N < chunks.length →
    (loadMoreN N now st).1 =
      (List.range N).map (fun j =>
        .success (loadedMsg (s.currentChunkIndex + j + 1))
          (formatChunk (s.currentChunkIndex + j + 1)
            (chunks.getD (s.currentChunkIndex + j + 1) []))
          (s.currentChunkIndex + j + 1)
          (decide (s.currentChunkIndex + j + 1 < chunks.length - 1))) ∧
    (loadMoreN N now st).2.currentSessionContext = some sid ∧
    (loadMoreN N now st).2.manager.timeout = st.manager.timeout ∧
    ∃ s' : SessionRec, (loadMoreN N now st).2.manager.sessions sid = some s' ∧
      s'.contentChunks = some chunks ∧
      s'.currentChunkIndex = s.currentChunkIndex + N ∧
      ¬ (loadMoreN N now st).2.manager.timeout < now - s'.lastUsed := by
  intro N
  induction N with
  | zero =>
    intro st now sid s chunks hctx hsid hlive hchunks hlen
    exact ⟨rfl, hctx, rfl, s, hsid, hchunks, rfl, hlive⟩
  | succ N ih =>
    intro st now sid s chunks hctx hsid hlive hchunks hlen
    have hlt : s.currentChunkIndex + 1 < chunks.length := by omega
    have hstep := load_more_impl_success st now sid s chunks hctx hsid hlive hchunks hlt
    have hN1 : loadMoreN (N + 1) now st =
        ((load_more_impl now st).1 :: (loadMoreN N now (load_more_impl now st).2).1,
         (loadMoreN N now (load_more_impl now st).2).2) := rfl
    set st1 : ServerState := { st with manager := ((st.manager.cleanup now).setSession sid { s with lastUsed := now, currentChunkIndex := s.currentChunkIndex + 1 }) } with hst1
    have h1 : (load_more_impl now st).1 =
        .success (loadedMsg (s.currentChunkIndex + 1))
          (formatChunk (s.currentChunkIndex + 1) (chunks.getD (s.currentChunkIndex + 1) []))
          (s.currentChunkIndex + 1)
          (decide (s.currentChunkIndex + 1 < chunks.length - 1)) := by
      rw [hstep]
    have h2 : (load_more_impl now st).2 = st1 := by
      rw [hstep]
    have hrec := ih st1 now sid { s with lastUsed := now, currentChunkIndex := s.currentChunkIndex + 1 } chunks
      hctx (setSession_sessions_same _ _ _) (by simp) hchunks (by simp; omega)
    rw [hN1, h1, h2]
    obtain ⟨hres, hctx', htmo', s', hs', hch', hcur', hlive'⟩ := hrec
    refine ⟨?_, hctx', by rw [htmo']; rfl, s', hs', hch', by simp at hcur'; omega, hlive'⟩
    simp only
    rw [hres]
    rw [List.range_succ_eq_map, List.map_cons, List.map_map]
    congr 1
    apply List.map_congr_left
    intro a _
    simp only [Function.comp]
    have e1 : s.currentChunkIndex + 1 + a + 1 = s.currentChunkIndex + (a + 1) + 1 := by omega
    rw [e1]

theorem countP_range_no_more (N t : Nat) :
    (List.range N).countP (fun j => !decide (j + 1 < t)) = N - min N (t - 1) := by
  induction N with
  | zero => simp
  | succ N ih =>
    rw [List.range_succ, List.countP_append, ih]
    by_cases h : N + 1 < t
    · have hb : (!decide (N + 1 < t)) = false := by simp [h]
      simp [List.countP_cons, hb]
      omega
    · have hb : (!decide (N + 1 < t)) = true := by simp [h]
      simp [List.countP_cons, hb]
      omega

/-- C3 (amended): after `visit_page`, `N ≤ k-1` successive `load_more`
calls return chunk indices `1, …, N` in strictly increasing order, call
`i` reporting `has_more_chunks = true` exactly when `i < k-1`; hence
`has_more_chunks = false` appears among the `N` results exactly when
`N = k-1` (then exactly once, on the call returning the final index
`k-1`), and the call after the final chunk returns the terminal
no-more-chunks result without raising. -/
theorem claim3_load_more_monotone (st : ServerState) (now sid : Nat) (s : SessionRec)
    (chunks : List (List Char)) (N : Nat)
    (hctx : st.currentSessionContext = some sid)
    (hsid : st.manager.sessions sid = some s)
    (hlive : ¬ st.manager.timeout < now - s.lastUsed)
    (hchunks : s.contentChunks = some chunks)
    (hcursor : s.currentChunkIndex = 0)
    (hk : 2 ≤ chunks.length)
    (hN : N ≤ chunks.length - 1) :
    (loadMoreN N now st).1 =
      (List.range N).map (fun j =>
        .success (loadedMsg (j + 1)) (formatChunk (j + 1) (chunks.getD (j + 1) []))
          (j + 1) (decide (j + 1 < chunks.length - 1))) ∧
    ((loadMoreN N now st).1.countP reportsNoMore) =
      (if N = chunks.length - 1 then 1 else 0) ∧
    (load_more_impl now ((loadMoreN (chunks.length - 1) now st).2)).1 =
      .complete "No more chunks available".data (chunks.length - 1) false := by
  have hres := loadMoreN_spec N st now sid s chunks hctx hsid hlive hchunks (by omega)
  have hmain : (loadMoreN N now st).1 =
      (List.range N).map (fun j =>
        LoadMoreResult.success (loadedMsg (j + 1))
          (formatChunk (j + 1) (chunks.getD (j + 1) []))
          (j + 1) (decide (j + 1 < chunks.length - 1))) := by
    rw [hres.1]
    apply List.map_congr_left
    intro a _
    rw [hcursor]
    simp
  refine ⟨hmain, ?_, ?_⟩
  · rw [hmain, List.countP_map]
    have hcp : ((fun r => reportsNoMore r) ∘ fun j =>
        LoadMoreResult.success (loadedMsg (j + 1))
          (formatChunk (j + 1) (chunks.getD (j + 1) []))
          (j + 1) (decide (j + 1 < chunks.length - 1))) =
        fun j => !decide (j + 1 < chunks.length - 1) := by
      funext j
      rfl
    rw [hcp, countP_range_no_more]
    by_cases hNk : N = chunks.length - 1
    · rw [if_pos hNk]; omega
    · rw [if_neg hNk]; omega
  · have hfin := loadMoreN_spec (chunks.length - 1) st now sid s chunks hctx hsid hlive
      hchunks (by omega)
    obtain ⟨_, hctx', htmo', s', hs', hch', hcur', hlive'⟩ := hfin
    have hterm := load_more_impl_complete ((loadMoreN (chunks.length - 1) now st).2) now sid
      s' chunks hctx' hs' hlive' hch' (by omega)
    rw [hterm]
    simp only
    rw [hcur', hcursor]
    simp

theorem claim3_load_more_monotone_witness :
    (loadMoreN 2 0 (demoState [['a'], ['b'], ['c']])).1 =
      [.success (loadedMsg 1) (formatChunk 1 ['b']) 1 true,
       .success (loadedMsg 2) (formatChunk 2 ['c']) 2 false] ∧
    ((loadMoreN 2 0 (demoState [['a'], ['b'], ['c']])).1.countP reportsNoMore) = 1 := by
  have h := claim3_load_more_monotone (demoState [['a'], ['b'], ['c']]) 0 0
    ⟨0, 0, some [['a'], ['b'], ['c']], 0⟩ [['a'], ['b'], ['c']] 2
    (by decide) (by decide) (by decide) (by decide) (by decide) (by decide) (by decide)
  refine ⟨?_, by rw [h.2.1]; rfl⟩
  rw [h.1]
  rfl

/-- C3, counterexample to the claim as stated: with `k = 3` chunks and
`N = 1 ≤ k-1`, the single `load_more` result reports
`has_more_chunks = true`, so `has_more_chunks = false` does not appear
"exactly once" among those `N` results. -/
theorem claim3_counterexample :
    (loadMoreN 1 0 (demoState [['a'], ['b'], ['c']])).1 =
      [.success (loadedMsg 1) (formatChunk 1 ['b']) 1 true] ∧
    ¬ (((loadMoreN 1 0 (demoState [['a'], ['b'], ['c']])).1.countP reportsNoMore) = 1) := by
  constructor
  · rfl
  · decide

/-! ## Lemmas about snippet construction -/

/-- `str.strip()` is the identity on a string with non-whitespace ends. -/
theorem pyStrip_eq_self (s : List Char)
    (h1 : ∀ c, s.head? = some c → c.isWhitespace = false)
    (h2 : ∀ c, s.getLast? = some c → c.isWhitespace = false) : pyStrip s = s := by
  unfold pyStrip
  have d1 : s.dropWhile Char.isWhitespace = s := by
    cases s with
    | nil => rfl
    | cons a t =>
      have ha := h1 a rfl
      simp [List.dropWhile_cons, ha]
  rw [d1]
  have d2 : s.reverse.dropWhile Char.isWhitespace = s.reverse := by
    cases hr : s.reverse with
    | nil => rfl
    | cons a t =>
      have ha : s.getLast? = some a := by
        rw [← List.head?_reverse, hr]
        rfl
      have := h2 a ha
      simp [List.dropWhile_cons, this]
  rw [d2, List.reverse_reverse]

/-- The ellipsis-framed snippet text is untouched by `strip()`. -/
theorem pyStrip_dots (mid : List Char) :
    pyStrip (dots ++ mid ++ dots) = dots ++ mid ++ dots := by
  apply pyStrip_eq_self
  · intro c hc
    simp [dots] at hc
    rw [← hc]
    decide
  · intro c hc
    have : dots ++ mid ++ dots = (dots ++ mid ++ ['.', '.']) ++ ['.'] := by
      simp [dots]
    rw [this, List.getLast?_concat] at hc
    simp at hc
    rw [← hc]
    decide


/-- Cutting the context window out of the buffer keeps the occurrence:
if `T` occurs at `pos` in `A`, it occurs at `pos - startPos` in the
window `A[pos-100 : min(len, pos+len(T)+100)]`. -/
theorem isMatchAt_take_drop (A T : List Char) (pos : Nat)
    (hp : isMatchAt A T pos = true) :
    isMatchAt ((A.take (min A.length (pos + T.length + 100))).drop (pos - 100)) T
      (pos - (pos - 100)) = true := by
  unfold isMatchAt at hp ⊢
  rw [Bool.and_eq_true] at hp
  obtain ⟨hb, hs⟩ := hp
  have hb' := of_decide_eq_true hb
  set s := pos - 100 with hsdef
  set e := min A.length (pos + T.length + 100) with hedef
  have hse : s ≤ pos := by omega
  have hpe : pos + T.length ≤ e := by omega
  have heA : e ≤ A.length := by omega
  rw [Bool.and_eq_true]
  constructor
  · apply decide_eq_true
    have hlen : ((A.take e).drop s).length = e - s := by
      simp only [List.length_drop, List.length_take]
      omega
    rw [hlen]
    omega
  · have h1 : ((A.take e).drop s).drop (pos - s) = (A.take e).drop pos := by
      rw [List.drop_drop]
      congr 1
      omega
    rw [h1, List.drop_take, List.take_take]
    have hmin : T.length ⊓ (e - pos) = T.length := by omega
    rw [hmin]
    exact hs

theorem isMatchAt_window (buf text : List Char) (pos : Nat)
    (hp : isMatchAt (pyLower buf) (pyLower text) pos = true) :
    isMatchAt (pyLower (snippetWindow buf text pos)) (pyLower text)
      (pos - (pos - 100)) = true := by
  have hW : pyLower (snippetWindow buf text pos) =
      ((pyLower buf).take
        (min (pyLower buf).length (pos + (pyLower text).length + 100))).drop (pos - 100) := by
    unfold snippetWindow pyLower
    rw [List.map_drop, List.map_take]
    simp only [List.length_map]
  rw [hW]
  exact isMatchAt_take_drop (pyLower buf) (pyLower text) pos hp


/-- What `mkSnippet` produces at a genuine match position: it succeeds,
its `position` is the match position, and its text is the window with
square brackets wrapped around the *first* case-insensitive occurrence of
the search text in the window (at offset `m ≤ pos - startPos`), framed in
ellipses (which `strip()` leaves untouched). -/
theorem mkSnippet_of_match (cs : List (List Char)) (buf text : List Char) (pos : Nat)
    (hp : isMatchAt (pyLower buf) (pyLower text) pos = true) :
    ∃ m, strFind (pyLower (snippetWindow buf text pos)) (pyLower text) 0 = some m ∧
      m ≤ pos - (pos - 100) ∧
      isMatchAt (pyLower (snippetWindow buf text pos)) (pyLower text) m = true ∧
      (∀ j, j < m →
        isMatchAt (pyLower (snippetWindow buf text pos)) (pyLower text) j = false) ∧
      mkSnippet cs buf text pos = some ⟨chunkIndexOf cs pos,
        dots ++ (snippetWindow buf text pos).take m ++
          '[' :: ((snippetWindow buf text pos).drop m).take text.length ++
          ']' :: (snippetWindow buf text pos).drop (m + text.length) ++ dots, pos⟩ := by
  have hw := isMatchAt_window buf text pos hp
  obtain ⟨m, hfind, hle⟩ := strFind_some_le _ _ 0 _ hw (Nat.zero_le _)
  have hspec := strFind_spec _ _ 0 m hfind
  refine ⟨m, hfind, hle, hspec.2.1, fun j hj => hspec.2.2 j (Nat.zero_le _) hj, ?_⟩
  have hassoc : dots ++ (snippetWindow buf text pos).take m ++
      '[' :: ((snippetWindow buf text pos).drop m).take text.length ++
      ']' :: (snippetWindow buf text pos).drop (m + text.length) ++ dots =
      dots ++ ((snippetWindow buf text pos).take m ++
        '[' :: ((snippetWindow buf text pos).drop m).take text.length ++
        ']' :: (snippetWindow buf text pos).drop (m + text.length)) ++ dots := by
    simp [List.append_assoc]
  have hstrip : pyStrip (dots ++ (snippetWindow buf text pos).take m ++
      '[' :: ((snippetWindow buf text pos).drop m).take text.length ++
      ']' :: (snippetWindow buf text pos).drop (m + text.length) ++ dots) =
      dots ++ (snippetWindow buf text pos).take m ++
      '[' :: ((snippetWindow buf text pos).drop m).take text.length ++
      ']' :: (snippetWindow buf text pos).drop (m + text.length) ++ dots := by
    rw [hassoc, pyStrip_dots, ← hassoc]
  unfold mkSnippet
  dsimp only
  rw [hfind]
  dsimp only
  rw [hstrip]

/-- Positions survive snippet construction: the snippet list built from a
batch of genuine match positions carries exactly those positions. -/
theorem filterMap_mkSnippet_positions (cs : List (List Char)) (buf text : List Char) :
    ∀ ps : List Nat, (∀ p ∈ ps, isMatchAt (pyLower buf) (pyLower text) p = true) →
    (ps.filterMap (mkSnippet cs buf text)).map SnippetEntry.position = ps := by
  intro ps
  induction ps with
  | nil => intro _; rfl
  | cons p t ih =>
    intro h
    have hp := h p (List.mem_cons_self _ _)
    obtain ⟨m, hm1, hm2, hm3, hm4, heq⟩ := mkSnippet_of_match cs buf text p hp
    rw [List.filterMap_cons, heq]
    simp only [List.map_cons]
    rw [ih (fun q hq => h q (List.mem_cons_of_mem _ hq))]

/-! ## Claim C5 -/

/-- C5 (amended): for a match at offset `pos`, the snippet is the context
window of up to 100 characters each side (clamped to the buffer) framed
in ellipses, but the square brackets wrap the *first* case-insensitive
occurrence of the search text inside that window — at an offset
`m ≤ pos - startPos` — which coincides with the occurrence at `pos`
exactly when no other occurrence begins earlier in the window. -/
theorem claim5_snippet_first_occurrence (cs : List (List Char)) (buf text : List Char)
    (pos : Nat) (hp : isMatchAt (pyLower buf) (pyLower text) pos = true) :
    ∃ m, strFind (pyLower (snippetWindow buf text pos)) (pyLower text) 0 = some m ∧
      m ≤ pos - (pos - 100) ∧
      isMatchAt (pyLower (snippetWindow buf text pos)) (pyLower text) m = true ∧
      (∀ j, j < m →
        isMatchAt (pyLower (snippetWindow buf text pos)) (pyLower text) j = false) ∧
      ((∀ j, j < pos - (pos - 100) →
          isMatchAt (pyLower (snippetWindow buf text pos)) (pyLower text) j = false) →
        m = pos - (pos - 100)) ∧
      mkSnippet cs buf text pos = some ⟨chunkIndexOf cs pos,
        dots ++ (snippetWindow buf text pos).take m ++
          '[' :: ((snippetWindow buf text pos).drop m).take text.length ++
          ']' :: (snippetWindow buf text pos).drop (m + text.length) ++ dots, pos⟩ := by
  obtain ⟨m, h1, h2, h3, h4, h5⟩ := mkSnippet_of_match cs buf text pos hp
  refine ⟨m, h1, h2, h3, h4, ?_, h5⟩
  intro hnone
  by_contra hne
  have hlt : m < pos - (pos - 100) := lt_of_le_of_ne h2 hne
  have hfalse := hnone m hlt
  rw [hfalse] at h3
  exact Bool.false_ne_true h3

theorem claim5_snippet_first_occurrence_witness :
    isMatchAt (pyLower "xy aa".data) (pyLower "aa".data) 3 = true ∧
    (∃ m, strFind (pyLower (snippetWindow "xy aa".data "aa".data 3)) (pyLower "aa".data) 0 =
        some m ∧
      m ≤ 3 - (3 - 100) ∧
      isMatchAt (pyLower (snippetWindow "xy aa".data "aa".data 3)) (pyLower "aa".data) m = true ∧
      (∀ j, j < m →
        isMatchAt (pyLower (snippetWindow "xy aa".data "aa".data 3)) (pyLower "aa".data) j = false) ∧
      ((∀ j, j < 3 - (3 - 100) →
          isMatchAt (pyLower (snippetWindow "xy aa".data "aa".data 3)) (pyLower "aa".data) j = false) →
        m = 3 - (3 - 100)) ∧
      mkSnippet ["xy aa".data] "xy aa".data "aa".data 3 = some ⟨chunkIndexOf ["xy aa".data] 3,
        dots ++ (snippetWindow "xy aa".data "aa".data 3).take m ++
          '[' :: ((snippetWindow "xy aa".data "aa".data 3).drop m).take "aa".data.length ++
          ']' :: (snippetWindow "xy aa".data "aa".data 3).drop (m + "aa".data.length) ++ dots, 3⟩) :=
  ⟨by decide,
   claim5_snippet_first_occurrence ["xy aa".data] "xy aa".data "aa".data 3 (by decide)⟩

/-- C5, counterexample to the claim as stated: searching `"aa"` in
`"aa bb aa"`, the snippet for the match at offset 6 brackets the earlier
occurrence sitting inside the preceding context window —
`"...[aa] bb aa..."` — not the matched occurrence at offset 6 itself
(which would read `"...aa bb [aa]..."`). -/
theorem claim5_counterexample :
    (search_on_page_impl "aa".data 5 0 (demoState ["aa bb aa".data])).1 =
      .ok ⟨"aa".data, 2, 2,
        [⟨0, "...[aa] bb aa...".data, 0⟩, ⟨0, "...[aa] bb aa...".data, 6⟩]⟩ ∧
    ¬ ("...[aa] bb aa...".data = "...aa bb [aa]...".data) := by
  constructor
  · decide
  · decide

/-! ## The cooked forms of the two search operations -/

theorem search_on_page_impl_eq (st : ServerState) (now sid : Nat) (s : SessionRec)
    (contentChunks : List (List Char)) (text : List Char) (n : Nat)
    (hctx : st.currentSessionContext = some sid)
    (hsid : st.manager.sessions sid = some s)
    (hlive : ¬ st.manager.timeout < now - s.lastUsed)
    (hchunks : s.contentChunks = some contentChunks) :
    search_on_page_impl text n now st =
      (.ok ⟨text,
         (findAllCapped (pyLower contentChunks.flatten) (pyLower text) (n * 10)).length,
         (((findAllCapped (pyLower contentChunks.flatten) (pyLower text) (n * 10)).take n).filterMap
             (mkSnippet contentChunks contentChunks.flatten text)).take n |>.length,
         (((findAllCapped (pyLower contentChunks.flatten) (pyLower text) (n * 10)).take n).filterMap
             (mkSnippet contentChunks contentChunks.flatten text)).take n⟩,
       { st with
         manager := ((st.manager.cleanup now).setSession sid { s with lastUsed := now }),
         searchContext := some ⟨sid, text,
           findAllCapped (pyLower contentChunks.flatten) (pyLower text) (n * 10),
           ((((findAllCapped (pyLower contentChunks.flatten) (pyLower text) (n * 10)).take n).filterMap
               (mkSnippet contentChunks contentChunks.flatten text)).take n).length, n⟩ }) := by
  have hget := getSession_of_live st.manager now sid s hsid hlive
  simp only [search_on_page_impl, hctx, hget, hchunks]

theorem search_next_on_page_impl_eq (st : ServerState) (now : Nat) (ctx : SearchContext)
    (s : SessionRec) (contentChunks : List (List Char)) (n : Nat)
    (hsctx : st.searchContext = some ctx)
    (htext : ctx.searchText ≠ [])
    (hsid : st.manager.sessions ctx.sessionId = some s)
    (hlive : ¬ st.manager.timeout < now - s.lastUsed)
    (hchunks : s.contentChunks = some contentChunks) :
    search_next_on_page_impl n now st =
      (.ok ⟨ctx.searchText, ctx.allMatches.length,
         (((ctx.allMatches.drop ctx.currentIndex).take n).filterMap
             (mkSnippet contentChunks contentChunks.flatten ctx.searchText)).length,
         ((ctx.allMatches.drop ctx.currentIndex).take n).filterMap
             (mkSnippet contentChunks contentChunks.flatten ctx.searchText),
         decide (min (ctx.currentIndex + n) ctx.allMatches.length < ctx.allMatches.length)⟩,
       { st with
         manager := ((st.manager.cleanup now).setSession ctx.sessionId { s with lastUsed := now }),
         searchContext := some { ctx with
           currentIndex := min (ctx.currentIndex + n) ctx.allMatches.length } }) := by
  have hget := getSession_of_live st.manager now ctx.sessionId s hsid hlive
  simp only [search_next_on_page_impl, hsctx, if_neg htext, hget, hchunks]

/-! ## Claim C4 -/

/-- C4 (amended): `search_on_page(text, n)` stores exactly the first
`max(10·n, 1)` case-insensitive occurrences of `text` in the concatenated
chunk buffer — the occurrence list holds every position at which the
lowered text matches (the scan advances by 1 after each hit, so
overlapping occurrences are all included), in increasing order — and the
reported `total_matches` is the length of that capped list.  For `n ≥ 1`
the cap is exactly `10·n`; for `n = 0` a single offset may still be
collected, because the cap test runs only after an append. -/
theorem claim4_search_scan (st : ServerState) (now sid : Nat) (s : SessionRec)
    (chunks : List (List Char)) (text : List Char) (n : Nat)
    (hctx : st.currentSessionContext = some sid)
    (hsid : st.manager.sessions sid = some s)
    (hlive : ¬ st.manager.timeout < now - s.lastUsed)
    (hchunks : s.contentChunks = some chunks) :
    ∃ ctx : SearchContext,
      (search_on_page_impl text n now st).2.searchContext = some ctx ∧
      ctx.allMatches =
        (allOccurrences (pyLower chunks.flatten) (pyLower text)).take (max (n * 10) 1) ∧
      (∀ p, p ∈ allOccurrences (pyLower chunks.flatten) (pyLower text) ↔
        isMatchAt (pyLower chunks.flatten) (pyLower text) p = true) ∧
      (allOccurrences (pyLower chunks.flatten) (pyLower text)).Pairwise (· < ·) ∧
      ∃ rr : SearchOk, (search_on_page_impl text n now st).1 = .ok rr ∧
        rr.totalMatches = ctx.allMatches.length := by
  rw [search_on_page_impl_eq st now sid s chunks text n hctx hsid hlive hchunks]
  refine ⟨_, rfl, ?_, allOccurrences_mem (pyLower chunks.flatten) (pyLower text), 
    allOccurrences_pairwise _ _, _, rfl, ?_⟩
  · rw [findAllCapped_eq]
  · rw [findAllCapped_eq]

theorem claim4_search_scan_witness :
    ∃ ctx : SearchContext,
      (search_on_page_impl "a".data 1 0 (demoState [['a', 'b'], ['a']])).2.searchContext =
        some ctx ∧
      ctx.allMatches =
        (allOccurrences (pyLower [['a', 'b'], ['a']].flatten) (pyLower "a".data)).take
          (max (1 * 10) 1) := by
  obtain ⟨ctx, h1, h2, _⟩ := claim4_search_scan (demoState [['a', 'b'], ['a']]) 0 0
    ⟨0, 0, some [['a', 'b'], ['a']], 0⟩ [['a', 'b'], ['a']] "a".data 1
    (by decide) (by decide) (by decide) (by decide)
  exact ⟨ctx, h1, h2⟩

/-- C4, counterexample to the claim as stated: with `n = 0` the stored
offset list still holds one offset — the cap `10 × n = 0` is exceeded
because the loop tests it only after appending. -/
theorem claim4_counterexample :
    (search_on_page_impl "a".data 0 0 (demoState [['a', 'a']])).2.searchContext =
      some ⟨0, "a".data, [0], 0, 0⟩ ∧
    ¬ (([0] : List Nat).length ≤ 10 * 0) := by
  constructor
  · decide
  · decide

theorem filterMap_mkSnippet_length (cs : List (List Char)) (buf text : List Char)
    (ps : List Nat) (h : ∀ p ∈ ps, isMatchAt (pyLower buf) (pyLower text) p = true) :
    (ps.filterMap (mkSnippet cs buf text)).length = ps.length := by
  have hlen := congrArg List.length (filterMap_mkSnippet_positions cs buf text ps h)
  simpa using hlen

/-! ## Claim C2 -/

/-- C2 (amended): for a nonempty search text with at least `batch + next`
case-insensitive occurrences and `batch + next ≤ 10·batch` (the eager
offset list is capped at `10·batch`), `search_on_page(text, batch)`
followed by `search_next_on_page(next)` delivers exactly the matches of
ranks `[batch, batch + next)` (0-indexed) of the occurrence list — no
overlap and no gap against the first call's `batch` matches, the two
batches concatenating to the first `batch + next` occurrences. -/
theorem claim2_search_continuation (st : ServerState) (now sid : Nat) (s : SessionRec)
    (chunks : List (List Char)) (text : List Char) (batch next : Nat)
    (hctx : st.currentSessionContext = some sid)
    (hsid : st.manager.sessions sid = some s)
    (hlive : ¬ st.manager.timeout < now - s.lastUsed)
    (hchunks : s.contentChunks = some chunks)
    (htext : text ≠ [])
    (hocc : batch + next ≤ (allOccurrences (pyLower chunks.flatten) (pyLower text)).length)
    (hcap : batch + next ≤ batch * 10) :
    ∃ rr1 : SearchOk, ∃ rr2 : SearchNextOk,
      (search_on_page_impl text batch now st).1 = .ok rr1 ∧
      (search_next_on_page_impl next now (search_on_page_impl text batch now st).2).1 =
        .ok rr2 ∧
      rr1.snippets.map SnippetEntry.position =
        (allOccurrences (pyLower chunks.flatten) (pyLower text)).take batch ∧
      rr2.snippets.map SnippetEntry.position =
        ((allOccurrences (pyLower chunks.flatten) (pyLower text)).drop batch).take next ∧
      rr1.snippets.map SnippetEntry.position ++ rr2.snippets.map SnippetEntry.position =
        (allOccurrences (pyLower chunks.flatten) (pyLower text)).take (batch + next) ∧
      rr2.snippetsReturned = next := by
  have hM := findAllCapped_eq (pyLower chunks.flatten) (pyLower text) (batch * 10)
  set occs := allOccurrences (pyLower chunks.flatten) (pyLower text) with hoccs
  set M := findAllCapped (pyLower chunks.flatten) (pyLower text) (batch * 10) with hMdef
  have hMall : ∀ p ∈ M, isMatchAt (pyLower chunks.flatten) (pyLower text) p = true := by
    intro p hp
    rw [hM] at hp
    exact (allOccurrences_mem _ _ p).mp (List.mem_of_mem_take hp)
  have hMlen : batch + next ≤ M.length := by
    rw [hM, List.length_take]
    omega
  have hS1pos : ((M.take batch).filterMap (mkSnippet chunks chunks.flatten text)).map
      SnippetEntry.position = M.take batch :=
    filterMap_mkSnippet_positions chunks chunks.flatten text (M.take batch)
      (fun p hp => hMall p (List.mem_of_mem_take hp))
  have hS1len : ((M.take batch).filterMap (mkSnippet chunks chunks.flatten text)).length =
      batch := by
    rw [filterMap_mkSnippet_length chunks chunks.flatten text (M.take batch)
      (fun p hp => hMall p (List.mem_of_mem_take hp))]
    rw [List.length_take]
    omega
  have hS1take : (((M.take batch).filterMap (mkSnippet chunks chunks.flatten text)).take
      batch) = (M.take batch).filterMap (mkSnippet chunks chunks.flatten text) :=
    List.take_of_length_le (by rw [hS1len])
  have htakeb : M.take batch = occs.take batch := by
    rw [hM, List.take_take]
    congr 1
    omega
  have hS2pos : (((M.drop batch).take next).filterMap
      (mkSnippet chunks chunks.flatten text)).map SnippetEntry.position =
      (M.drop batch).take next :=
    filterMap_mkSnippet_positions chunks chunks.flatten text ((M.drop batch).take next)
      (fun p hp => hMall p (List.mem_of_mem_drop (List.mem_of_mem_take hp)))
  have hdropb : (M.drop batch).take next = (occs.drop batch).take next := by
    rw [hM, List.drop_take, List.take_take]
    congr 1
    omega
  have hS2len : (((M.drop batch).take next).filterMap
      (mkSnippet chunks chunks.flatten text)).length = next := by
    rw [filterMap_mkSnippet_length chunks chunks.flatten text ((M.drop batch).take next)
      (fun p hp => hMall p (List.mem_of_mem_drop (List.mem_of_mem_take hp)))]
    rw [List.length_take, List.length_drop]
    omega
  rw [search_on_page_impl_eq st now sid s chunks text batch hctx hsid hlive hchunks]
  rw [search_next_on_page_impl_eq _ now
      ⟨sid, text, M,
        (((M.take batch).filterMap (mkSnippet chunks chunks.flatten text)).take batch).length,
        batch⟩
      { s with lastUsed := now } chunks next rfl htext (setSession_sessions_same _ _ _)
      (by simp) (by simp [hchunks])]
  refine ⟨_, _, rfl, rfl, ?_, ?_, ?_, ?_⟩
  · rw [hS1take, hS1pos]
    exact htakeb
  · rw [hS1take, hS1len, hS2pos]
    exact hdropb
  · rw [hS1take, hS1len, hS1pos, hS2pos, htakeb, hdropb, List.take_add]
  · rw [hS1take, hS1len]
    exact hS2len

theorem claim2_search_continuation_witness :
    ∃ rr1 : SearchOk, ∃ rr2 : SearchNextOk,
      (search_on_page_impl "the".data 2 0 (demoState ["the the the the the".data])).1 =
        .ok rr1 ∧
      (search_next_on_page_impl 3 0
          (search_on_page_impl "the".data 2 0 (demoState ["the the the the the".data])).2).1 =
        .ok rr2 ∧
      rr1.snippets.map SnippetEntry.position =
        (allOccurrences (pyLower ["the the the the the".data].flatten)
          (pyLower "the".data)).take 2 ∧
      rr2.snippets.map SnippetEntry.position =
        ((allOccurrences (pyLower ["the the the the the".data].flatten)
          (pyLower "the".data)).drop 2).take 3 ∧
      rr1.snippets.map SnippetEntry.position ++ rr2.snippets.map SnippetEntry.position =
        (allOccurrences (pyLower ["the the the the the".data].flatten)
          (pyLower "the".data)).take (2 + 3) ∧
      rr2.snippetsReturned = 3 :=
  claim2_search_continuation (demoState ["the the the the the".data]) 0 0
    ⟨0, 0, some ["the the the the the".data], 0⟩ ["the the the the the".data]
    "the".data 2 3 (by decide) (by decide) (by decide) (by decide) (by decide)
    (by decide) (by decide)

/-- Projection used to exhibit the delivered match ranks of a
`search_next_on_page` result. -/
def searchNextPositions (r : SearchNextResult) : List Nat :=
  match r with
  | .ok rr => rr.snippets.map SnippetEntry.position
  | _ => []

/-- C2, counterexample to the claim as stated, in two parts.  (i) With
`batch = 1`, `next = 10` on a document with 11 occurrences of `"a"`, the
eagerly stored offset list is capped at `10 × batch = 10` offsets, so the
continuation delivers only ranks 1–9, not ranks `[1, 11)`.  (ii) With the
empty search text (which occurs in every document), `search_next_on_page`
refuses outright (`if not search_text`), delivering nothing. -/
theorem claim2_counterexample :
    searchNextPositions (search_next_on_page_impl 10 0
        ((search_on_page_impl "a".data 1 0 (demoState [List.replicate 11 'a'])).2)).1 =
      [1, 2, 3, 4, 5, 6, 7, 8, 9] ∧
    ((allOccurrences (pyLower (List.replicate 11 'a')) (pyLower "a".data)).drop 1).take 10 =
      [1, 2, 3, 4, 5, 6, 7, 8, 9, 10] ∧
    ¬ (([1, 2, 3, 4, 5, 6, 7, 8, 9] : List Nat) =
        [1, 2, 3, 4, 5, 6, 7, 8, 9, 10]) ∧
    (search_next_on_page_impl 1 0
        ((search_on_page_impl [] 1 0 (demoState [['a', 'b']])).2)).1 = .noSearchText := by
  refine ⟨by decide, by decide, by decide, by decide⟩

/-! ## Claim C10 -/

theorem cleanup_setSession_other (m : SessionManager) (now sid k : Nat) (r : SessionRec)
    (h : k ≠ sid) :
    ((m.setSession sid r).cleanup now).sessions k = (m.cleanup now).sessions k := by
  rw [cleanup_sessions_eq, cleanup_sessions_eq, setSession_sessions_other _ _ _ _ h]
  rfl

theorem cleanup_sessions_some (m : SessionManager) (now sid : Nat) (r : SessionRec)
    (h : (m.cleanup now).sessions sid = some r) : m.sessions sid = some r := by
  rw [cleanup_sessions_eq] at h
  cases hm : m.sessions sid with
  | none => rw [hm] at h; simp at h
  | some s =>
    rw [hm] at h
    by_cases he : m.timeout < now - s.lastUsed
    · simp [he] at h
    · simp [he] at h
      rw [h]

theorem cleanup_sessions_some_live (m : SessionManager) (now sid : Nat) (r : SessionRec)
    (h : (m.cleanup now).sessions sid = some r) : ¬ m.timeout < now - r.lastUsed := by
  rw [cleanup_sessions_eq] at h
  cases hm : m.sessions sid with
  | none => rw [hm] at h; simp at h
  | some s =>
    rw [hm] at h
    by_cases he : m.timeout < now - s.lastUsed
    · simp [he] at h
    · simp [he] at h
      rw [← h]
      exact he

/-- The old session record seen by `visit_page`'s successor state. -/
theorem visit_page_other_session (content : List Char) (now : Nat) (st : ServerState)
    (sid' : Nat) (h : sid' ≠ st.nextSessionId) :
    (visit_page_impl content now st).2.manager.sessions sid' =
      (st.manager.cleanup now).sessions sid' := by
  rw [visit_page_impl_eq]
  simp only [SessionManager.createSession]
  rw [setSession_sessions_other _ _ _ _ h, setSession_sessions_other _ _ _ _ h]
  exact cleanup_setSession_other st.manager now st.nextSessionId sid' _ h

/-- C10: a successful `visit_page` never touches the global search
cursor — it only repoints the current-session pointer — so a following
`search_next_on_page` still resolves the session id stored in the search
cursor: the earlier page's record (preserved verbatim modulo the sweep),
whose chunks feed the returned snippets; if that session has been
evicted, a session-not-found error results.  The snippets are computed
from the *earlier* page's stored chunks, never from the newly visited
page. -/
theorem claim10_visit_preserves_search_cursor :
    (∀ (content : List Char) (now : Nat) (st : ServerState),
        (visit_page_impl content now st).2.searchContext = st.searchContext) ∧
    (∀ (content : List Char) (now : Nat) (st : ServerState) (sid' : Nat),
        sid' ≠ st.nextSessionId →
        (visit_page_impl content now st).2.manager.sessions sid' =
          (st.manager.cleanup now).sessions sid') ∧
    (∀ (m : SessionManager) (now sid : Nat) (r : SessionRec),
        (m.cleanup now).sessions sid = some r → m.sessions sid = some r) ∧
    (∀ (content : List Char) (now : Nat) (st : ServerState) (ctx : SearchContext) (n : Nat),
        st.searchContext = some ctx → ctx.searchText ≠ [] →
        ctx.sessionId ≠ st.nextSessionId →
        ((st.manager.cleanup now).sessions ctx.sessionId = none →
          (search_next_on_page_impl n now (visit_page_impl content now st).2).1 =
            .sessionNotFound ctx.sessionId) ∧
        (∀ (oldS : SessionRec) (oldChunks : List (List Char)),
          (st.manager.cleanup now).sessions ctx.sessionId = some oldS →
          oldS.contentChunks = some oldChunks →
          ∃ rr : SearchNextOk,
            (search_next_on_page_impl n now (visit_page_impl content now st).2).1 = .ok rr ∧
            rr.snippets = ((ctx.allMatches.drop ctx.currentIndex).take n).filterMap
              (mkSnippet oldChunks oldChunks.flatten ctx.searchText) ∧
            rr.totalMatches = ctx.allMatches.length)) := by
  refine ⟨?_, visit_page_other_session, cleanup_sessions_some, ?_⟩
  · intro content now st
    rw [visit_page_impl_eq]
  · intro content now st ctx n hsctx htext hne
    have hsctx' : (visit_page_impl content now st).2.searchContext = some ctx := by
      rw [visit_page_impl_eq]
      exact hsctx
    have hother := visit_page_other_session content now st ctx.sessionId hne
    constructor
    · intro hnone
      have hmiss : (visit_page_impl content now st).2.manager.sessions ctx.sessionId = none := by
        rw [hother, hnone]
      have hget := getSession_of_none (visit_page_impl content now st).2.manager now
        ctx.sessionId hmiss
      simp only [search_next_on_page_impl, hsctx', if_neg htext, hget]
    · intro oldS oldChunks hsome hchunks
      have hsid' : (visit_page_impl content now st).2.manager.sessions ctx.sessionId =
          some oldS := by
        rw [hother, hsome]
      have hlive0 := cleanup_sessions_some_live st.manager now ctx.sessionId oldS hsome
      have htmo : (visit_page_impl content now st).2.manager.timeout =
          st.manager.timeout := by
        rw [visit_page_impl_eq]
        rfl
      have hlive' : ¬ (visit_page_impl content now st).2.manager.timeout <
          now - oldS.lastUsed := by
        rw [htmo]
        exact hlive0
      rw [search_next_on_page_impl_eq _ now ctx oldS oldChunks n hsctx' htext hsid'
        hlive' hchunks]
      exact ⟨_, rfl, rfl, rfl⟩

theorem claim10_visit_preserves_search_cursor_witness :
    ((visit_page_impl "new page".data 0
        { demoState [['o', 'l', 'd']] with
          searchContext := some ⟨0, "old".data, [0], 0, 5⟩ }).2).searchContext =
      some ⟨0, "old".data, [0], 0, 5⟩ ∧
    (∃ rr : SearchNextOk,
      (search_next_on_page_impl 5 0 (visit_page_impl "new page".data 0
          { demoState [['o', 'l', 'd']] with
            searchContext := some ⟨0, "old".data, [0], 0, 5⟩ }).2).1 = .ok rr ∧
      rr.snippets = (([0].drop 0).take 5).filterMap
        (mkSnippet [['o', 'l', 'd']] [['o', 'l', 'd']].flatten "old".data) ∧
      rr.totalMatches = 1) := by
  constructor
  · exact claim10_visit_preserves_search_cursor.1 "new page".data 0 _
  · have h := (claim10_visit_preserves_search_cursor.2.2.2 "new page".data 0
      { demoState [['o', 'l', 'd']] with searchContext := some ⟨0, "old".data, [0], 0, 5⟩ }
      ⟨0, "old".data, [0], 0, 5⟩ 5 rfl (by decide) (by decide)).2
      ⟨0, 0, some [['o', 'l', 'd']], 0⟩ [['o', 'l', 'd']] (by decide) (by decide)
    exact h

/-! ## Claim C8 -/

/-- C8: `validate_url` rejects `file:///etc/passwd`, `http://localhost`,
`http://127.0.0.1` and `http://192.168.1.5`, accepts
`https://example.com`, rejects every URL whose scheme is not `http`/
`https`, every URL whose hostname is `0.0.0.0` or textually starts with
`192.168.`, `10.` or `172.`, and fails closed (returns false) on any URL
whose parsing raises. -/
theorem claim8_validate_url :
    validate_url "file:///etc/passwd".data = false ∧
    validate_url "http://localhost".data = false ∧
    validate_url "http://127.0.0.1".data = false ∧
    validate_url "http://192.168.1.5".data = false ∧
    validate_url "https://example.com".data = true ∧
    (∀ (url : List Char) (p : UrlParts), urlparse url = some p →
      p.scheme ≠ "http".data → p.scheme ≠ "https".data → validate_url url = false) ∧
    (∀ (url : List Char) (p : UrlParts) (h : List Char), urlparse url = some p →
      p.hostname = some h →
      (h = "0.0.0.0".data ∨ "192.168.".data.isPrefixOf h = true ∨
        "10.".data.isPrefixOf h = true ∨ "172.".data.isPrefixOf h = true) →
      validate_url url = false) ∧
    (∀ url : List Char, urlparse url = none → validate_url url = false) := by
  refine ⟨by decide, by decide, by decide, by decide, by decide, ?_, ?_, ?_⟩
  · intro url p hu h1 h2
    unfold validate_url
    rw [hu]
    dsimp only
    have hb : (p.scheme == "http".data || p.scheme == "https".data) = false := by
      simp only [Bool.or_eq_false_iff, beq_eq_false_iff_ne, ne_eq]
      exact ⟨h1, h2⟩
    rw [hb]
    rfl
  · intro url p h hu hh hcase
    unfold validate_url
    rw [hu]
    dsimp only
    split_ifs with g1 g2 g3 g4 g5
    · rfl
    · rfl
    · rfl
    · rfl
    · rfl
    · exfalso
      rcases hcase with hc | hc | hc | hc
      · apply g2
        subst hc
        rw [hh]
        simp
      · exact g3 (by unfold hostnameStarts; rw [hh]; exact hc)
      · exact g4 (by unfold hostnameStarts; rw [hh]; exact hc)
      · exact g5 (by unfold hostnameStarts; rw [hh]; exact hc)
  · intro url hu
    unfold validate_url
    rw [hu]

theorem claim8_validate_url_witness :
    validate_url "ftp://example.com".data = false ∧
    validate_url "http://10.0.0.5".data = false := by
  constructor
  · exact claim8_validate_url.2.2.2.2.2.1 "ftp://example.com".data
      ⟨"ftp".data, some "example.com".data⟩ (by decide) (by decide) (by decide)
  · exact claim8_validate_url.2.2.2.2.2.2.1 "http://10.0.0.5".data
      ⟨"http".data, some "10.0.0.5".data⟩ "10.0.0.5".data (by decide) (by decide)
      (Or.inr (Or.inr (Or.inl (by decide))))
